import Mathlib

/-!
# libcork `cork_u128`: a verification development

Shallow embedding of `include/libcork/core/u128.h`.

The C type `cork_u128` is a union of overlapping views of one 16-byte object
(`u8[16]`, `u16[8]`, `u32[4]`, `u64[2]`, the `be64` pair and, when the compiler
has one, a native `u128`).  The embedding keeps the 16 bytes as the only
state and computes every wider view from them, for either host byte order.
Machine integers are natural numbers, reduced `% 2 ^ w` wherever C converts or
wraps.
-/

namespace Libcork

/-! ## Build configuration -/

/-- The two values `CORK_HOST_ENDIANNESS` is compared against. -/
inductive Endianness where
  | CORK_BIG_ENDIAN
  | CORK_LITTLE_ENDIAN
  deriving DecidableEq, Repr

open Endianness

/-- The build-time inputs of the header: `CORK_HOST_ENDIANNESS` and
`CORK_U128_HAVE_U128`. -/
structure Config where
  CORK_HOST_ENDIANNESS : Endianness
  CORK_U128_HAVE_U128 : Bool
  deriving DecidableEq, Repr

/-! ## The 16-byte object and its views -/

/-- The object `cork_u128`: sixteen bytes, indexed by address offset. -/
@[ext]
structure cork_u128 where
  u8 : Fin 16 → Fin 256

/-- How two adjacent `w`-bit units form the `2 * w`-bit unit that covers
them: `first` is the unit at the lower address.  On a big-endian host the
lower address is the more significant half, on a little-endian host the
less significant one. -/
def join (e : Endianness) (w first second : Nat) : Nat :=
  match e with
  | CORK_BIG_ENDIAN => first * 2 ^ w + second
  | CORK_LITTLE_ENDIAN => second * 2 ^ w + first

/-- Read `v._.u8[i]`. -/
def get_u8 (v : cork_u128) (i : Fin 16) : Nat := (v.u8 i).val

/-- Read `v._.u16[i]`. -/
def get_u16 (e : Endianness) (v : cork_u128) (i : Fin 8) : Nat :=
  join e 8 (get_u8 v ⟨2 * i.val, by omega⟩) (get_u8 v ⟨2 * i.val + 1, by omega⟩)

/-- Read `v._.u32[i]`. -/
def get_u32 (e : Endianness) (v : cork_u128) (i : Fin 4) : Nat :=
  join e 16 (get_u16 e v ⟨2 * i.val, by omega⟩) (get_u16 e v ⟨2 * i.val + 1, by omega⟩)

/-- Read `v._.u64[i]`. -/
def get_u64 (e : Endianness) (v : cork_u128) (i : Fin 2) : Nat :=
  join e 32 (get_u32 e v ⟨2 * i.val, by omega⟩) (get_u32 e v ⟨2 * i.val + 1, by omega⟩)

/-- Read `v._.u128` (the native 128-bit member, when it exists). -/
def get_u128 (e : Endianness) (v : cork_u128) : Nat :=
  join e 64 (get_u64 e v 0) (get_u64 e v 1)

/-- Write `v._.u8[i] = x` (the stored value is `x` converted to `uint8_t`). -/
def set_u8 (v : cork_u128) (i : Fin 16) (x : Nat) : cork_u128 :=
  ⟨fun j => if j = i then ⟨x % 256, Nat.mod_lt _ (by decide)⟩ else v.u8 j⟩

/-- Write `v._.u16[i] = x` (the stored value is `x` converted to `uint16_t`). -/
def set_u16 (e : Endianness) (v : cork_u128) (i : Fin 8) (x : Nat) : cork_u128 :=
  let x := x % 2 ^ 16
  match e with
  | CORK_BIG_ENDIAN =>
    set_u8 (set_u8 v ⟨2 * i.val, by omega⟩ (x / 2 ^ 8)) ⟨2 * i.val + 1, by omega⟩ (x % 2 ^ 8)
  | CORK_LITTLE_ENDIAN =>
    set_u8 (set_u8 v ⟨2 * i.val, by omega⟩ (x % 2 ^ 8)) ⟨2 * i.val + 1, by omega⟩ (x / 2 ^ 8)

/-- Write `v._.u32[i] = x` (the stored value is `x` converted to `uint32_t`). -/
def set_u32 (e : Endianness) (v : cork_u128) (i : Fin 4) (x : Nat) : cork_u128 :=
  let x := x % 2 ^ 32
  match e with
  | CORK_BIG_ENDIAN =>
    set_u16 e (set_u16 e v ⟨2 * i.val, by omega⟩ (x / 2 ^ 16)) ⟨2 * i.val + 1, by omega⟩
      (x % 2 ^ 16)
  | CORK_LITTLE_ENDIAN =>
    set_u16 e (set_u16 e v ⟨2 * i.val, by omega⟩ (x % 2 ^ 16)) ⟨2 * i.val + 1, by omega⟩
      (x / 2 ^ 16)

/-- Write `v._.u64[i] = x` (the stored value is `x` converted to `uint64_t`). -/
def set_u64 (e : Endianness) (v : cork_u128) (i : Fin 2) (x : Nat) : cork_u128 :=
  let x := x % 2 ^ 64
  match e with
  | CORK_BIG_ENDIAN =>
    set_u32 e (set_u32 e v ⟨2 * i.val, by omega⟩ (x / 2 ^ 32)) ⟨2 * i.val + 1, by omega⟩
      (x % 2 ^ 32)
  | CORK_LITTLE_ENDIAN =>
    set_u32 e (set_u32 e v ⟨2 * i.val, by omega⟩ (x % 2 ^ 32)) ⟨2 * i.val + 1, by omega⟩
      (x / 2 ^ 32)

/-- Write `v._.u128 = x` (the stored value is `x` converted to the 128-bit
unsigned type). -/
def set_u128 (e : Endianness) (v : cork_u128) (x : Nat) : cork_u128 :=
  let x := x % 2 ^ 128
  match e with
  | CORK_BIG_ENDIAN => set_u64 e (set_u64 e v 0 (x / 2 ^ 64)) 1 (x % 2 ^ 64)
  | CORK_LITTLE_ENDIAN => set_u64 e (set_u64 e v 0 (x % 2 ^ 64)) 1 (x / 2 ^ 64)

/-- Index in `u64[2]` of the member `be64.hi`: the struct is `{ hi; lo }` on a
big-endian host and `{ lo; hi }` otherwise. -/
def be64_hi_index (e : Endianness) : Fin 2 :=
  match e with
  | CORK_BIG_ENDIAN => 0
  | CORK_LITTLE_ENDIAN => 1

/-- Index in `u64[2]` of the member `be64.lo`. -/
def be64_lo_index (e : Endianness) : Fin 2 :=
  match e with
  | CORK_BIG_ENDIAN => 1
  | CORK_LITTLE_ENDIAN => 0

/-- Read `v._.be64.hi`. -/
def get_be64_hi (e : Endianness) (v : cork_u128) : Nat := get_u64 e v (be64_hi_index e)

/-- Read `v._.be64.lo`. -/
def get_be64_lo (e : Endianness) (v : cork_u128) : Nat := get_u64 e v (be64_lo_index e)

/-- Write `v._.be64.hi = x`. -/
def set_be64_hi (e : Endianness) (v : cork_u128) (x : Nat) : cork_u128 :=
  set_u64 e v (be64_hi_index e) x

/-- Write `v._.be64.lo = x`. -/
def set_be64_lo (e : Endianness) (v : cork_u128) (x : Nat) : cork_u128 :=
  set_u64 e v (be64_lo_index e) x

/-- The unsigned number a `cork_u128` stands for: `be64.hi * 2 ^ 64 + be64.lo`. -/
def value (e : Endianness) (v : cork_u128) : Nat :=
  get_be64_hi e v * 2 ^ 64 + get_be64_lo e v

/-! ## Constructors -/

/-- `cork_u128_from_32`: `uninit` is the content of the local `value` before
the four assignments. -/
def cork_u128_from_32 (e : Endianness) (uninit : cork_u128) (i0 i1 i2 i3 : Nat) : cork_u128 :=
  match e with
  | CORK_BIG_ENDIAN =>
    let value := set_u32 e uninit 0 i0
    let value := set_u32 e value 1 i1
    let value := set_u32 e value 2 i2
    let value := set_u32 e value 3 i3
    value
  | CORK_LITTLE_ENDIAN =>
    let value := set_u32 e uninit 3 i0
    let value := set_u32 e value 2 i1
    let value := set_u32 e value 1 i2
    let value := set_u32 e value 0 i3
    value

/-- `cork_u128_from_64`: `uninit` is the content of the local `value` before
the two assignments. -/
def cork_u128_from_64 (e : Endianness) (uninit : cork_u128) (i0 i1 : Nat) : cork_u128 :=
  match e with
  | CORK_BIG_ENDIAN =>
    let value := set_u64 e uninit 0 i0
    let value := set_u64 e value 1 i1
    value
  | CORK_LITTLE_ENDIAN =>
    let value := set_u64 e uninit 1 i0
    let value := set_u64 e value 0 i1
    value

/-! ## Big-endian indexed accessors -/

/-- The macro `cork_u128_be8(val, idx)`. -/
def cork_u128_be8 (e : Endianness) (val : cork_u128) (idx : Fin 16) : Nat :=
  match e with
  | CORK_BIG_ENDIAN => get_u8 val idx
  | CORK_LITTLE_ENDIAN => get_u8 val ⟨15 - idx.val, by omega⟩

/-- The macro `cork_u128_be16(val, idx)`. -/
def cork_u128_be16 (e : Endianness) (val : cork_u128) (idx : Fin 8) : Nat :=
  match e with
  | CORK_BIG_ENDIAN => get_u16 e val idx
  | CORK_LITTLE_ENDIAN => get_u16 e val ⟨7 - idx.val, by omega⟩

/-- The macro `cork_u128_be32(val, idx)`. -/
def cork_u128_be32 (e : Endianness) (val : cork_u128) (idx : Fin 4) : Nat :=
  match e with
  | CORK_BIG_ENDIAN => get_u32 e val idx
  | CORK_LITTLE_ENDIAN => get_u32 e val ⟨3 - idx.val, by omega⟩

/-- The macro `cork_u128_be64(val, idx)`. -/
def cork_u128_be64 (e : Endianness) (val : cork_u128) (idx : Fin 2) : Nat :=
  match e with
  | CORK_BIG_ENDIAN => get_u64 e val idx
  | CORK_LITTLE_ENDIAN => get_u64 e val ⟨1 - idx.val, by omega⟩

/-! ## 64-bit machine arithmetic -/

/-- Addition of two `uint64_t`. -/
def add64 (x y : Nat) : Nat := (x + y) % 2 ^ 64

/-- Subtraction of two `uint64_t` (wraps below zero). -/
def sub64 (x y : Nat) : Nat := (x + (2 ^ 64 - y % 2 ^ 64)) % 2 ^ 64

/-- Multiplication of two `uint64_t`. -/
def mul64 (x y : Nat) : Nat := (x * y) % 2 ^ 64

/-- A C comparison used as an integer operand: `1` when true, `0` when false. -/
def boolToInt (c : Bool) : Nat := if c then 1 else 0

/-! ## Arithmetic -/

/-- `cork_u128_add`: `uninit` is the content of the local `result` before it is
assigned. -/
def cork_u128_add (cfg : Config) (uninit a b : cork_u128) : cork_u128 :=
  let h := cfg.CORK_HOST_ENDIANNESS
  if cfg.CORK_U128_HAVE_U128 then
    set_u128 h uninit ((get_u128 h a + get_u128 h b) % 2 ^ 128)
  else
    let result := set_be64_lo h uninit (add64 (get_be64_lo h a) (get_be64_lo h b))
    let result := set_be64_hi h result
      (add64 (add64 (get_be64_hi h a) (get_be64_hi h b))
        (boolToInt (decide (get_be64_lo h result < get_be64_lo h a))))
    result

/-- `cork_u128_sub`: `uninit` is the content of the local `result` before it is
assigned. -/
def cork_u128_sub (cfg : Config) (uninit a b : cork_u128) : cork_u128 :=
  let h := cfg.CORK_HOST_ENDIANNESS
  if cfg.CORK_U128_HAVE_U128 then
    set_u128 h uninit ((get_u128 h a + (2 ^ 128 - get_u128 h b % 2 ^ 128)) % 2 ^ 128)
  else
    let result := set_be64_lo h uninit (sub64 (get_be64_lo h a) (get_be64_lo h b))
    let result := set_be64_hi h result
      (sub64 (sub64 (get_be64_hi h a) (get_be64_hi h b))
        (boolToInt (decide (get_be64_lo h result > get_be64_lo h a))))
    result

/-- The four column sums `(x, X, w, W)` of `cork_u128_mul`, computed in
`uint64_t` from the 32-bit limbs `A a B b` of the left operand and `C c D d`
of the right one, statement by statement as in the source. -/
def mul_columns (A a B b C c D d : Nat) : Nat × Nat × Nat × Nat :=
  let Ee := mul64 b d; let E := Ee >>> 32; let e := Ee &&& 0xffffffff
  let Ff := mul64 B d; let F := Ff >>> 32; let f := Ff &&& 0xffffffff
  let Gg := mul64 a d; let G := Gg >>> 32; let g := Gg &&& 0xffffffff
  let Hh := mul64 A d;                     let h := Hh &&& 0xffffffff
  let Ii := mul64 b D; let I := Ii >>> 32; let i := Ii &&& 0xffffffff
  let Jj := mul64 B D; let J := Jj >>> 32; let j := Jj &&& 0xffffffff
  let Kk := mul64 a D;                     let k := Kk &&& 0xffffffff
  let Mm := mul64 b c; let M := Mm >>> 32; let m := Mm &&& 0xffffffff
  let Nn := mul64 B c;                     let n := Nn &&& 0xffffffff
  let Qq := mul64 b C;                     let q := Qq &&& 0xffffffff
  let x := e
  let X := add64 (add64 (add64 E f) i) (x >>> 32)
  let w := add64 (add64 (add64 (add64 (add64 F g) I) j) m) (X >>> 32)
  let W := add64 (add64 (add64 (add64 (add64 (add64 (add64 G h) J) k) M) n) q) (w >>> 32)
  (x, X, w, W)

/-- `cork_u128_mul`: `uninit` is the content of the local `result` before it is
assigned.  The limb code follows the `#endif`, so it runs in both builds; with
the native type the assignment to `result._.u128` precedes it. -/
def cork_u128_mul (cfg : Config) (uninit lhs rhs : cork_u128) : cork_u128 :=
  let h := cfg.CORK_HOST_ENDIANNESS
  let result :=
    if cfg.CORK_U128_HAVE_U128 then
      set_u128 h uninit ((get_u128 h lhs * get_u128 h rhs) % 2 ^ 128)
    else uninit
  let A := get_u32 h lhs 3
  let a := get_u32 h lhs 2
  let B := get_u32 h lhs 1
  let b := get_u32 h lhs 0
  let C := get_u32 h rhs 3
  let c := get_u32 h rhs 2
  let D := get_u32 h rhs 1
  let d := get_u32 h rhs 0
  let (x, X, w, W) := mul_columns A a B b C c D d
  let result := set_u32 h result 3 W
  let result := set_u32 h result 2 w
  let result := set_u32 h result 1 X
  let result := set_u32 h result 0 x
  result

/-- `cork_u128_div`: `none` is the call to `abort()`; `uninit` is the content
of the local `result` before it is assigned.  Division by zero in the native
type has no defined result and is `none` as well. -/
def cork_u128_div (cfg : Config) (uninit a b : cork_u128) : Option cork_u128 :=
  let h := cfg.CORK_HOST_ENDIANNESS
  if cfg.CORK_U128_HAVE_U128 then
    if get_u128 h b = 0 then none
    else some (set_u128 h uninit (get_u128 h a / get_u128 h b))
  else none

/-- `cork_u128_mod`: `none` is the call to `abort()`; `uninit` is the content
of the local `result` before it is assigned.  Remainder by zero in the native
type has no defined result and is `none` as well. -/
def cork_u128_mod (cfg : Config) (uninit a b : cork_u128) : Option cork_u128 :=
  let h := cfg.CORK_HOST_ENDIANNESS
  if cfg.CORK_U128_HAVE_U128 then
    if get_u128 h b = 0 then none
    else some (set_u128 h uninit (get_u128 h a % get_u128 h b))
  else none

/-! ## Comparisons -/

/-- `cork_u128_eq`. -/
def cork_u128_eq (cfg : Config) (a b : cork_u128) : Bool :=
  let h := cfg.CORK_HOST_ENDIANNESS
  if cfg.CORK_U128_HAVE_U128 then
    decide (get_u128 h a = get_u128 h b)
  else
    decide (get_be64_hi h a = get_be64_hi h b) && decide (get_be64_lo h a = get_be64_lo h b)

/-- `cork_u128_ne`. -/
def cork_u128_ne (cfg : Config) (a b : cork_u128) : Bool :=
  let h := cfg.CORK_HOST_ENDIANNESS
  if cfg.CORK_U128_HAVE_U128 then
    decide (get_u128 h a ≠ get_u128 h b)
  else
    decide (get_be64_hi h a ≠ get_be64_hi h b) || decide (get_be64_lo h a ≠ get_be64_lo h b)

/-- `cork_u128_lt`. -/
def cork_u128_lt (cfg : Config) (a b : cork_u128) : Bool :=
  let h := cfg.CORK_HOST_ENDIANNESS
  if cfg.CORK_U128_HAVE_U128 then
    decide (get_u128 h a < get_u128 h b)
  else
    if get_be64_hi h a = get_be64_hi h b then
      decide (get_be64_lo h a < get_be64_lo h b)
    else
      decide (get_be64_hi h a < get_be64_hi h b)

/-- `cork_u128_le`. -/
def cork_u128_le (cfg : Config) (a b : cork_u128) : Bool :=
  let h := cfg.CORK_HOST_ENDIANNESS
  if cfg.CORK_U128_HAVE_U128 then
    decide (get_u128 h a ≤ get_u128 h b)
  else
    if get_be64_hi h a = get_be64_hi h b then
      decide (get_be64_lo h a ≤ get_be64_lo h b)
    else
      decide (get_be64_hi h a ≤ get_be64_hi h b)

/-- `cork_u128_gt`. -/
def cork_u128_gt (cfg : Config) (a b : cork_u128) : Bool :=
  let h := cfg.CORK_HOST_ENDIANNESS
  if cfg.CORK_U128_HAVE_U128 then
    decide (get_u128 h a > get_u128 h b)
  else
    if get_be64_hi h a = get_be64_hi h b then
      decide (get_be64_lo h a > get_be64_lo h b)
    else
      decide (get_be64_hi h a > get_be64_hi h b)

/-- `cork_u128_ge`. -/
def cork_u128_ge (cfg : Config) (a b : cork_u128) : Bool :=
  let h := cfg.CORK_HOST_ENDIANNESS
  if cfg.CORK_U128_HAVE_U128 then
    decide (get_u128 h a ≥ get_u128 h b)
  else
    if get_be64_hi h a = get_be64_hi h b then
      decide (get_be64_lo h a ≥ get_be64_lo h b)
    else
      decide (get_be64_hi h a ≥ get_be64_hi h b)

/-- The object whose sixteen bytes are all zero. -/
def zeroed : cork_u128 := ⟨fun _ => 0⟩

/-! ## The column sums over the natural numbers -/

/-- The column sums `(x, X, w, W)` of `cork_u128_mul` with every product and
every sum taken over the natural numbers, where nothing can wrap; the shifts
and masks are those of the source.  This is the reference `mul_columns` is
compared with. -/
def mul_columns_nat (A a B b C c D d : Nat) : Nat × Nat × Nat × Nat :=
  let Ee := b * d; let E := Ee >>> 32; let e := Ee &&& 0xffffffff
  let Ff := B * d; let F := Ff >>> 32; let f := Ff &&& 0xffffffff
  let Gg := a * d; let G := Gg >>> 32; let g := Gg &&& 0xffffffff
  let Hh := A * d;                     let h := Hh &&& 0xffffffff
  let Ii := b * D; let I := Ii >>> 32; let i := Ii &&& 0xffffffff
  let Jj := B * D; let J := Jj >>> 32; let j := Jj &&& 0xffffffff
  let Kk := a * D;                     let k := Kk &&& 0xffffffff
  let Mm := b * c; let M := Mm >>> 32; let m := Mm &&& 0xffffffff
  let Nn := B * c;                     let n := Nn &&& 0xffffffff
  let Qq := b * C;                     let q := Qq &&& 0xffffffff
  let x := e
  let X := E + f + i                 + (x >>> 32)
  let w := F + g + I + j + m         + (X >>> 32)
  let W := G + h + J + k + M + n + q + (w >>> 32)
  (x, X, w, W)

/-! ## Formatting -/

/-- The macro `CORK_U128_DECIMAL_LENGTH`. -/
def CORK_U128_DECIMAL_LENGTH : Nat := 44

/-- The macro `CORK_U128_HEX_LENGTH`. -/
def CORK_U128_HEX_LENGTH : Nat := 33

/-- Modelled from the spec: the digits `cork_u128_to_decimal` writes for a
number.  The function is declared in `u128.h` and its body is not among the
source files; the spec asks for "the shortest decimal digit string with no
leading zeros representing the value (value 0 renders as `"0"`)". -/
def decimal_string (n : Nat) : String :=
  if n = 0 then "0" else String.mk ((Nat.digits 10 n).reverse.map Nat.digitChar)

/-- Modelled from the spec: `cork_u128_to_decimal`, whose body is not among the
source files.  The result is the terminated string the returned pointer
designates; where in the caller's buffer it starts is not modelled. -/
def cork_u128_to_decimal (h : Endianness) (val : cork_u128) : String :=
  decimal_string (value h val)

/-! ## Views of a stored object -/

theorem get_u8_lt (v : cork_u128) (i : Fin 16) : get_u8 v i < 2 ^ 8 := (v.u8 i).isLt

theorem get_u16_lt (h : Endianness) (v : cork_u128) (i : Fin 8) : get_u16 h v i < 2 ^ 16 := by
  have h1 := get_u8_lt v ⟨2 * i.val, by omega⟩
  have h2 := get_u8_lt v ⟨2 * i.val + 1, by omega⟩
  cases h <;> simp only [get_u16, join] <;> omega

theorem get_u32_lt (h : Endianness) (v : cork_u128) (i : Fin 4) : get_u32 h v i < 2 ^ 32 := by
  have h1 := get_u16_lt h v ⟨2 * i.val, by omega⟩
  have h2 := get_u16_lt h v ⟨2 * i.val + 1, by omega⟩
  cases h <;> simp only [get_u32, join] <;> omega

theorem get_u64_lt (h : Endianness) (v : cork_u128) (i : Fin 2) : get_u64 h v i < 2 ^ 64 := by
  have h1 := get_u32_lt h v ⟨2 * i.val, by omega⟩
  have h2 := get_u32_lt h v ⟨2 * i.val + 1, by omega⟩
  cases h <;> simp only [get_u64, join] <;> omega

theorem get_u8_set_u8 (v : cork_u128) (i j : Fin 16) (x : Nat) :
    get_u8 (set_u8 v i x) j = if j = i then x % 2 ^ 8 else get_u8 v j := by
  unfold get_u8 set_u8
  by_cases hji : j = i <;> simp [hji]

theorem get_u16_set_u16 (h : Endianness) (v : cork_u128) (i j : Fin 8) (x : Nat) :
    get_u16 h (set_u16 h v i x) j = if j = i then x % 2 ^ 16 else get_u16 h v j := by
  by_cases hji : j = i
  · subst hji
    cases h <;> simp [get_u16, set_u16, get_u8_set_u8, join, Fin.ext_iff] <;> omega
  · have hv : j.val ≠ i.val := fun hh => hji (Fin.ext hh)
    have e1 : ¬ (2 * j.val = 2 * i.val) := by omega
    have e2 : ¬ (2 * j.val = 2 * i.val + 1) := by omega
    have e3 : ¬ (2 * j.val + 1 = 2 * i.val) := by omega
    have e4 : ¬ (2 * j.val + 1 = 2 * i.val + 1) := by omega
    cases h <;> simp [get_u16, set_u16, get_u8_set_u8, join, Fin.ext_iff, hji, e1, e2, e3, e4]

theorem get_u32_set_u32 (h : Endianness) (v : cork_u128) (i j : Fin 4) (x : Nat) :
    get_u32 h (set_u32 h v i x) j = if j = i then x % 2 ^ 32 else get_u32 h v j := by
  by_cases hji : j = i
  · subst hji
    cases h <;> simp [get_u32, set_u32, get_u16_set_u16, join, Fin.ext_iff] <;> omega
  · have hv : j.val ≠ i.val := fun hh => hji (Fin.ext hh)
    have e1 : ¬ (2 * j.val = 2 * i.val) := by omega
    have e2 : ¬ (2 * j.val = 2 * i.val + 1) := by omega
    have e3 : ¬ (2 * j.val + 1 = 2 * i.val) := by omega
    have e4 : ¬ (2 * j.val + 1 = 2 * i.val + 1) := by omega
    cases h <;> simp [get_u32, set_u32, get_u16_set_u16, join, Fin.ext_iff, hji, e1, e2, e3, e4]

theorem get_u64_set_u64 (h : Endianness) (v : cork_u128) (i j : Fin 2) (x : Nat) :
    get_u64 h (set_u64 h v i x) j = if j = i then x % 2 ^ 64 else get_u64 h v j := by
  by_cases hji : j = i
  · subst hji
    cases h <;> simp [get_u64, set_u64, get_u32_set_u32, join, Fin.ext_iff] <;> omega
  · have hv : j.val ≠ i.val := fun hh => hji (Fin.ext hh)
    have e1 : ¬ (2 * j.val = 2 * i.val) := by omega
    have e2 : ¬ (2 * j.val = 2 * i.val + 1) := by omega
    have e3 : ¬ (2 * j.val + 1 = 2 * i.val) := by omega
    have e4 : ¬ (2 * j.val + 1 = 2 * i.val + 1) := by omega
    cases h <;> simp [get_u64, set_u64, get_u32_set_u32, join, Fin.ext_iff, hji, e1, e2, e3, e4]

/-- The native view and the `be64` pair name the same number on either host. -/
theorem get_u128_eq_value (h : Endianness) (v : cork_u128) : get_u128 h v = value h v := by
  cases h <;> simp [get_u128, value, get_be64_hi, get_be64_lo, be64_hi_index, be64_lo_index, join]

theorem get_be64_hi_lt (h : Endianness) (v : cork_u128) : get_be64_hi h v < 2 ^ 64 :=
  get_u64_lt h v _

theorem get_be64_lo_lt (h : Endianness) (v : cork_u128) : get_be64_lo h v < 2 ^ 64 :=
  get_u64_lt h v _

theorem value_lt (h : Endianness) (v : cork_u128) : value h v < 2 ^ 128 := by
  have h1 := get_be64_hi_lt h v
  have h2 := get_be64_lo_lt h v
  unfold value
  omega

theorem be64_hi_index_ne_lo (h : Endianness) : be64_hi_index h ≠ be64_lo_index h := by
  cases h <;> decide

/-- After both halves are assigned, `be64.hi` holds the second value written. -/
theorem get_be64_hi_set (h : Endianness) (v : cork_u128) (x y : Nat) :
    get_be64_hi h (set_be64_hi h (set_be64_lo h v x) y) = y % 2 ^ 64 := by
  simp [get_be64_hi, set_be64_hi, get_u64_set_u64]

/-- After both halves are assigned, `be64.lo` holds the first value written. -/
theorem get_be64_lo_set (h : Endianness) (v : cork_u128) (x y : Nat) :
    get_be64_lo h (set_be64_hi h (set_be64_lo h v x) y) = x % 2 ^ 64 := by
  have hne := be64_hi_index_ne_lo h
  simp [get_be64_lo, set_be64_hi, set_be64_lo, get_u64_set_u64, hne.symm]

theorem get_be64_lo_set_lo (h : Endianness) (v : cork_u128) (x : Nat) :
    get_be64_lo h (set_be64_lo h v x) = x % 2 ^ 64 := by
  simp [get_be64_lo, set_be64_lo, get_u64_set_u64]

/-- After both halves are assigned the object stands for `y * 2 ^ 64 + x`
(each reduced to 64 bits), whatever it held before. -/
theorem value_set_be64 (h : Endianness) (v : cork_u128) (x y : Nat) :
    value h (set_be64_hi h (set_be64_lo h v x) y) = y % 2 ^ 64 * 2 ^ 64 + x % 2 ^ 64 := by
  simp only [value, get_be64_hi_set, get_be64_lo_set]

/-- The number an object stands for, from its 32-bit limbs. -/
theorem value_eq_u32 (h : Endianness) (v : cork_u128) :
    value h v =
      match h with
      | CORK_BIG_ENDIAN =>
        get_u32 h v 0 * 2 ^ 96 + get_u32 h v 1 * 2 ^ 64 + get_u32 h v 2 * 2 ^ 32 + get_u32 h v 3
      | CORK_LITTLE_ENDIAN =>
        get_u32 h v 3 * 2 ^ 96 + get_u32 h v 2 * 2 ^ 64 + get_u32 h v 1 * 2 ^ 32 + get_u32 h v 0 := by
  cases h <;>
    simp only [value, get_be64_hi, get_be64_lo, be64_hi_index, be64_lo_index, get_u64, join] <;>
    simp <;> omega

/-- Every byte, counted from the most significant end, is a digit of `value`
in base 256. -/
theorem be8_eq (h : Endianness) (v : cork_u128) (i : Fin 16) :
    cork_u128_be8 h v i = value h v / 2 ^ (8 * (15 - i.val)) % 2 ^ 8 := by
  have b0 := get_u8_lt v 0
  have b1 := get_u8_lt v 1
  have b2 := get_u8_lt v 2
  have b3 := get_u8_lt v 3
  have b4 := get_u8_lt v 4
  have b5 := get_u8_lt v 5
  have b6 := get_u8_lt v 6
  have b7 := get_u8_lt v 7
  have b8 := get_u8_lt v 8
  have b9 := get_u8_lt v 9
  have b10 := get_u8_lt v 10
  have b11 := get_u8_lt v 11
  have b12 := get_u8_lt v 12
  have b13 := get_u8_lt v 13
  have b14 := get_u8_lt v 14
  have b15 := get_u8_lt v 15
  cases h <;> fin_cases i <;>
    simp [cork_u128_be8, value, get_be64_hi, get_be64_lo, be64_hi_index, be64_lo_index,
      get_u64, get_u32, get_u16, join] <;> omega

/-- The byte at an address, as a digit of `value`. -/
theorem get_u8_eq (h : Endianness) (v : cork_u128) (i : Fin 16) :
    get_u8 v i =
      match h with
      | CORK_BIG_ENDIAN => value h v / 2 ^ (8 * (15 - i.val)) % 2 ^ 8
      | CORK_LITTLE_ENDIAN => value h v / 2 ^ (8 * i.val) % 2 ^ 8 := by
  cases h
  · exact be8_eq CORK_BIG_ENDIAN v i
  · have := be8_eq CORK_LITTLE_ENDIAN v ⟨15 - i.val, by omega⟩
    simp only [cork_u128_be8] at this
    have e : 15 - (15 - i.val) = i.val := by omega
    simp only [e] at this
    exact this

/-- Two objects that stand for the same number hold the same sixteen bytes. -/
theorem eq_of_value_eq (h : Endianness) (v w : cork_u128) (hv : value h v = value h w) :
    v = w := by
  ext i
  have h1 := get_u8_eq h v i
  have h2 := get_u8_eq h w i
  rw [hv] at h1
  have : get_u8 v i = get_u8 w i := h1.trans h2.symm
  exact this

theorem value_from_64 (h : Endianness) (uninit : cork_u128) (i0 i1 : Nat) :
    value h (cork_u128_from_64 h uninit i0 i1) = i0 % 2 ^ 64 * 2 ^ 64 + i1 % 2 ^ 64 := by
  cases h <;>
    simp [cork_u128_from_64, value, get_be64_hi, get_be64_lo, be64_hi_index, be64_lo_index,
      get_u64_set_u64]

/-- The value written by the 64-bit-halves path of `cork_u128_add`. -/
theorem value_add_halves (h : Endianness) (uninit a b : cork_u128) :
    value h (cork_u128_add ⟨h, false⟩ uninit a b) = (value h a + value h b) % 2 ^ 128 := by
  have h1 := get_be64_hi_lt h a
  have h2 := get_be64_lo_lt h a
  have h3 := get_be64_hi_lt h b
  have h4 := get_be64_lo_lt h b
  simp only [cork_u128_add, Bool.false_eq_true, if_false, value_set_be64, get_be64_lo_set_lo]
  simp only [value, add64, boolToInt]
  generalize get_be64_hi h a = ah at *
  generalize get_be64_lo h a = al at *
  generalize get_be64_hi h b = bh at *
  generalize get_be64_lo h b = bl at *
  by_cases hc : (al + bl) % 2 ^ 64 % 2 ^ 64 < al
  · simp only [hc, decide_True, if_true]
    omega
  · simp only [hc, decide_False, if_false, Bool.false_eq_true]
    omega

/-- The value written by the 64-bit-halves path of `cork_u128_sub`. -/
theorem value_sub_halves (h : Endianness) (uninit a b : cork_u128) :
    value h (cork_u128_sub ⟨h, false⟩ uninit a b) =
      (value h a + (2 ^ 128 - value h b)) % 2 ^ 128 := by
  have h1 := get_be64_hi_lt h a
  have h2 := get_be64_lo_lt h a
  have h3 := get_be64_hi_lt h b
  have h4 := get_be64_lo_lt h b
  simp only [cork_u128_sub, Bool.false_eq_true, if_false, value_set_be64, get_be64_lo_set_lo]
  simp only [value, sub64, boolToInt]
  generalize get_be64_hi h a = ah at *
  generalize get_be64_lo h a = al at *
  generalize get_be64_hi h b = bh at *
  generalize get_be64_lo h b = bl at *
  by_cases hc : (al + (2 ^ 64 - bl % 2 ^ 64)) % 2 ^ 64 % 2 ^ 64 > al
  · simp only [hc, decide_True, if_true]
    omega
  · simp only [hc, decide_False, if_false, Bool.false_eq_true]
    omega

/-- C2. On either host, the 64-bit-halves path of `cork_u128_add` returns the
object whose value is `(value a + value b) mod 2 ^ 128`; the carry test of the
code, `result.lo < a.lo` on the low half just stored, is true exactly when
`a.lo + b.lo ≥ 2 ^ 64`; and adding `from_64(0, 1)` to
`from_64(0xFFFFFFFFFFFFFFFF, 0xFFFFFFFFFFFFFFFF)` gives `from_64(0, 0)`. -/
theorem cork_u128_add_halves_correct (h : Endianness) (uninit a b u1 u2 u3 : cork_u128) :
    value h (cork_u128_add ⟨h, false⟩ uninit a b) = (value h a + value h b) % 2 ^ 128 ∧
    (get_be64_lo h (set_be64_lo h uninit (add64 (get_be64_lo h a) (get_be64_lo h b)))
        < get_be64_lo h a ↔ 2 ^ 64 ≤ get_be64_lo h a + get_be64_lo h b) ∧
    cork_u128_add ⟨h, false⟩ uninit
        (cork_u128_from_64 h u1 0xFFFFFFFFFFFFFFFF 0xFFFFFFFFFFFFFFFF)
        (cork_u128_from_64 h u2 0 1)
      = cork_u128_from_64 h u3 0 0 := by
  refine ⟨value_add_halves h uninit a b, ?_, ?_⟩
  · have h2 := get_be64_lo_lt h a
    have h4 := get_be64_lo_lt h b
    simp only [get_be64_lo_set_lo, add64]
    omega
  · apply eq_of_value_eq h
    rw [value_add_halves, value_from_64, value_from_64, value_from_64]
    norm_num

/-- C3. On either host, the 64-bit-halves path of `cork_u128_sub` returns the
object whose value is `(value a - value b) mod 2 ^ 128` (computed over the
integers, so a negative difference wraps), and the borrow test of the code,
`result.lo > a.lo` on the low half just stored, is true exactly when
`a.lo < b.lo`. -/
theorem cork_u128_sub_halves_correct (h : Endianness) (uninit a b : cork_u128) :
    (value h (cork_u128_sub ⟨h, false⟩ uninit a b) : Int)
      = ((value h a : Int) - (value h b : Int)) % 2 ^ 128 ∧
    (get_be64_lo h (set_be64_lo h uninit (sub64 (get_be64_lo h a) (get_be64_lo h b)))
        > get_be64_lo h a ↔ get_be64_lo h a < get_be64_lo h b) := by
  constructor
  · have ha := value_lt h a
    have hb := value_lt h b
    rw [value_sub_halves]
    generalize value h a = va at *
    generalize value h b = vb at *
    norm_num at ha hb ⊢
    omega
  · have h2 := get_be64_lo_lt h a
    have h4 := get_be64_lo_lt h b
    simp only [get_be64_lo_set_lo, sub64]
    omega

/-- C4. On either host, each of the six predicates on the `be64.hi`/`be64.lo`
path decides the corresponding comparison of the unsigned values. -/
theorem cork_u128_compare_agrees_with_value (h : Endianness) (a b : cork_u128) :
    (cork_u128_eq ⟨h, false⟩ a b = true ↔ value h a = value h b) ∧
    (cork_u128_ne ⟨h, false⟩ a b = true ↔ value h a ≠ value h b) ∧
    (cork_u128_lt ⟨h, false⟩ a b = true ↔ value h a < value h b) ∧
    (cork_u128_le ⟨h, false⟩ a b = true ↔ value h a ≤ value h b) ∧
    (cork_u128_gt ⟨h, false⟩ a b = true ↔ value h a > value h b) ∧
    (cork_u128_ge ⟨h, false⟩ a b = true ↔ value h a ≥ value h b) := by
  have h1 := get_be64_hi_lt h a
  have h2 := get_be64_lo_lt h a
  have h3 := get_be64_hi_lt h b
  have h4 := get_be64_lo_lt h b
  simp only [cork_u128_eq, cork_u128_ne, cork_u128_lt, cork_u128_le, cork_u128_gt,
    cork_u128_ge, Bool.false_eq_true, if_false, value]
  generalize get_be64_hi h a = ah at *
  generalize get_be64_lo h a = al at *
  generalize get_be64_hi h b = bh at *
  generalize get_be64_lo h b = bl at *
  by_cases hh : ah = bh
  · subst hh
    simp only [if_true, Bool.and_eq_true, Bool.or_eq_true, decide_eq_true_eq, decide_True,
      decide_not, Bool.not_eq_true', decide_eq_false_iff_not, true_and, not_true, false_or,
      Bool.true_eq_false, ne_eq]
    refine ⟨?_, ?_, ?_, ?_, ?_, ?_⟩ <;> omega
  · simp only [hh, if_false, Bool.and_eq_true, Bool.or_eq_true, decide_eq_true_eq,
      decide_False, Bool.false_eq_true, false_and, not_false_eq_true, decide_True, true_or,
      false_iff, true_iff]
    refine ⟨?_, ?_, ?_, ?_, ?_, ?_⟩ <;> omega

/-- C5. On either host and in either build (with the native 128-bit type or on
the `be64.hi`/`be64.lo` path), exactly one of `cork_u128_lt(a,b)`,
`cork_u128_eq(a,b)`, `cork_u128_gt(a,b)` is true. -/
theorem cork_u128_trichotomy (h : Endianness) (native : Bool) (a b : cork_u128) :
    (cork_u128_lt ⟨h, native⟩ a b = true ∧ cork_u128_eq ⟨h, native⟩ a b = false ∧
        cork_u128_gt ⟨h, native⟩ a b = false) ∨
    (cork_u128_lt ⟨h, native⟩ a b = false ∧ cork_u128_eq ⟨h, native⟩ a b = true ∧
        cork_u128_gt ⟨h, native⟩ a b = false) ∨
    (cork_u128_lt ⟨h, native⟩ a b = false ∧ cork_u128_eq ⟨h, native⟩ a b = false ∧
        cork_u128_gt ⟨h, native⟩ a b = true) := by
  cases native
  · simp only [cork_u128_eq, cork_u128_lt, cork_u128_gt, Bool.false_eq_true, if_false]
    generalize get_be64_hi h a = ah
    generalize get_be64_lo h a = al
    generalize get_be64_hi h b = bh
    generalize get_be64_lo h b = bl
    by_cases hh : ah = bh
    · subst hh
      simp only [if_true, Bool.and_eq_true, Bool.and_eq_false_iff, decide_eq_true_eq,
        decide_eq_false_iff_not, decide_True, Bool.true_and, not_true, false_or]
      omega
    · simp only [hh, if_false, Bool.and_eq_true, Bool.and_eq_false_iff, decide_eq_true_eq,
        decide_eq_false_iff_not, decide_False, Bool.false_and, Bool.false_eq_true,
        not_false_eq_true, true_or, and_true, and_false, false_or, or_false, true_and,
        false_and]
      omega
  · simp only [cork_u128_eq, cork_u128_lt, cork_u128_gt, if_true, decide_eq_true_eq,
      decide_eq_false_iff_not]
    generalize get_u128 h a = va
    generalize get_u128 h b = vb
    omega

/-- C6. On either host and in either build (with the native 128-bit type or on
the `be64.hi`/`be64.lo` path), `cork_u128_le(a,b)` equals
`cork_u128_lt(a,b) || cork_u128_eq(a,b)`. -/
theorem cork_u128_le_eq_lt_or_eq (h : Endianness) (native : Bool) (a b : cork_u128) :
    cork_u128_le ⟨h, native⟩ a b
      = (cork_u128_lt ⟨h, native⟩ a b || cork_u128_eq ⟨h, native⟩ a b) := by
  cases native
  · simp only [cork_u128_eq, cork_u128_lt, cork_u128_le, Bool.false_eq_true, if_false]
    generalize get_be64_hi h a = ah
    generalize get_be64_lo h a = al
    generalize get_be64_hi h b = bh
    generalize get_be64_lo h b = bl
    rw [Bool.eq_iff_iff]
    by_cases hh : ah = bh
    · subst hh
      simp only [if_true, Bool.and_eq_true, Bool.or_eq_true, decide_eq_true_eq, decide_True,
        true_and]
      omega
    · simp only [hh, if_false, Bool.and_eq_true, Bool.or_eq_true, decide_eq_true_eq,
        decide_False, Bool.false_eq_true, false_and, or_false]
      omega
  · simp only [cork_u128_eq, cork_u128_lt, cork_u128_le, if_true]
    generalize get_u128 h a = va
    generalize get_u128 h b = vb
    rw [Bool.eq_iff_iff]
    simp only [Bool.or_eq_true, decide_eq_true_eq]
    omega

/-- What `(hi << 32) | lo` is when `lo` fits in 32 bits. -/
theorem shl32_or (hi lo : Nat) (hlo : lo < 2 ^ 32) : hi <<< 32 ||| lo = hi * 2 ^ 32 + lo := by
  rw [Nat.shiftLeft_eq, Nat.mul_comm, ← Nat.mul_add_lt_is_or hlo]

/-- `x >> 32` and `x & 0xffffffff` are the quotient and remainder by `2 ^ 32`. -/
theorem shr32_and32 (x : Nat) : x >>> 32 = x / 2 ^ 32 ∧ x &&& 0xffffffff = x % 2 ^ 32 := by
  constructor
  · exact Nat.shiftRight_eq_div_pow x 32
  · exact Nat.and_pow_two_sub_one_eq_mod x 32

theorem value_from_32 (h : Endianness) (uninit : cork_u128) (i0 i1 i2 i3 : Nat) :
    value h (cork_u128_from_32 h uninit i0 i1 i2 i3) =
      i0 % 2 ^ 32 * 2 ^ 96 + i1 % 2 ^ 32 * 2 ^ 64 + i2 % 2 ^ 32 * 2 ^ 32 + i3 % 2 ^ 32 := by
  rw [value_eq_u32]
  cases h <;> simp [cork_u128_from_32, get_u32_set_u32]

/-- C7. On either host and for all 32-bit words, `cork_u128_from_32` and
`cork_u128_from_64` of the paired words build the same sixteen bytes (hence
the same value in every view), whatever the locals held before, and
`cork_u128_eq` of the two results is true in either build. -/
theorem cork_u128_from_32_eq_from_64 (h : Endianness) (native : Bool) (u1 u2 : cork_u128)
    (i0 i1 i2 i3 : Nat)
    (_h0 : i0 < 2 ^ 32) (h1 : i1 < 2 ^ 32) (_h2 : i2 < 2 ^ 32) (h3 : i3 < 2 ^ 32) :
    cork_u128_from_32 h u1 i0 i1 i2 i3
        = cork_u128_from_64 h u2 (i0 <<< 32 ||| i1) (i2 <<< 32 ||| i3) ∧
    cork_u128_eq ⟨h, native⟩ (cork_u128_from_32 h u1 i0 i1 i2 i3)
        (cork_u128_from_64 h u2 (i0 <<< 32 ||| i1) (i2 <<< 32 ||| i3)) = true := by
  have key : cork_u128_from_32 h u1 i0 i1 i2 i3
      = cork_u128_from_64 h u2 (i0 <<< 32 ||| i1) (i2 <<< 32 ||| i3) := by
    apply eq_of_value_eq h
    rw [value_from_32, value_from_64, shl32_or i0 i1 h1, shl32_or i2 i3 h3]
    omega
  refine ⟨key, ?_⟩
  rw [key]
  cases native <;> simp [cork_u128_eq]

/-- An instance of C7 on a little-endian host. -/
theorem cork_u128_from_32_eq_from_64_witness :
    cork_u128_from_32 CORK_LITTLE_ENDIAN zeroed 1 2 3 4
        = cork_u128_from_64 CORK_LITTLE_ENDIAN zeroed (1 <<< 32 ||| 2) (3 <<< 32 ||| 4) ∧
    cork_u128_eq ⟨CORK_LITTLE_ENDIAN, false⟩
        (cork_u128_from_32 CORK_LITTLE_ENDIAN zeroed 1 2 3 4)
        (cork_u128_from_64 CORK_LITTLE_ENDIAN zeroed (1 <<< 32 ||| 2) (3 <<< 32 ||| 4)) = true :=
  cork_u128_from_32_eq_from_64 CORK_LITTLE_ENDIAN false zeroed zeroed 1 2 3 4
    (by decide) (by decide) (by decide) (by decide)

/-- C8. On either host the constructors build the stated number: for 32-bit
words `value (from_32 i0 i1 i2 i3) = i0 * 2 ^ 96 + i1 * 2 ^ 64 + i2 * 2 ^ 32 + i3`
and for 64-bit words `value (from_64 j0 j1) = j0 * 2 ^ 64 + j1`. -/
theorem cork_u128_constructors_value (h : Endianness) (u1 u2 : cork_u128)
    (i0 i1 i2 i3 j0 j1 : Nat)
    (h0 : i0 < 2 ^ 32) (h1 : i1 < 2 ^ 32) (h2 : i2 < 2 ^ 32) (h3 : i3 < 2 ^ 32)
    (g0 : j0 < 2 ^ 64) (g1 : j1 < 2 ^ 64) :
    value h (cork_u128_from_32 h u1 i0 i1 i2 i3)
        = i0 * 2 ^ 96 + i1 * 2 ^ 64 + i2 * 2 ^ 32 + i3 ∧
    value h (cork_u128_from_64 h u2 j0 j1) = j0 * 2 ^ 64 + j1 := by
  rw [value_from_32, value_from_64, Nat.mod_eq_of_lt h0, Nat.mod_eq_of_lt h1,
    Nat.mod_eq_of_lt h2, Nat.mod_eq_of_lt h3, Nat.mod_eq_of_lt g0, Nat.mod_eq_of_lt g1]
  exact ⟨rfl, rfl⟩

/-- An instance of C8 on a big-endian host. -/
theorem cork_u128_constructors_value_witness :
    value CORK_BIG_ENDIAN (cork_u128_from_32 CORK_BIG_ENDIAN zeroed 1 2 3 4)
        = 1 * 2 ^ 96 + 2 * 2 ^ 64 + 3 * 2 ^ 32 + 4 ∧
    value CORK_BIG_ENDIAN (cork_u128_from_64 CORK_BIG_ENDIAN zeroed 5 6) = 5 * 2 ^ 64 + 6 :=
  cork_u128_constructors_value CORK_BIG_ENDIAN zeroed zeroed 1 2 3 4 5 6
    (by decide) (by decide) (by decide) (by decide) (by decide) (by decide)

/-- The 32-bit limbs, counted from the most significant end, are the digits of
`value` in base `2 ^ 32`. -/
theorem be32_eq (h : Endianness) (v : cork_u128) (i : Fin 4) :
    cork_u128_be32 h v i = value h v / 2 ^ (32 * (3 - i.val)) % 2 ^ 32 := by
  have b0 := get_u32_lt h v 0
  have b1 := get_u32_lt h v 1
  have b2 := get_u32_lt h v 2
  have b3 := get_u32_lt h v 3
  rw [value_eq_u32]
  cases h <;> fin_cases i <;> simp [cork_u128_be32] <;> omega

/-- The 64-bit halves, counted from the most significant end, are the digits
of `value` in base `2 ^ 64`. -/
theorem be64_eq (h : Endianness) (v : cork_u128) (i : Fin 2) :
    cork_u128_be64 h v i = value h v / 2 ^ (64 * (1 - i.val)) % 2 ^ 64 := by
  have b0 := get_u64_lt h v 0
  have b1 := get_u64_lt h v 1
  cases h <;> fin_cases i <;>
    simp [cork_u128_be64, value, get_be64_hi, get_be64_lo, be64_hi_index, be64_lo_index] <;>
    omega

/-- The 16-bit units, counted from the most significant end, are the digits of
`value` in base `2 ^ 16`. -/
theorem be16_eq (h : Endianness) (v : cork_u128) (i : Fin 8) :
    cork_u128_be16 h v i = value h v / 2 ^ (16 * (7 - i.val)) % 2 ^ 16 := by
  have b0 := get_u16_lt h v 0
  have b1 := get_u16_lt h v 1
  have b2 := get_u16_lt h v 2
  have b3 := get_u16_lt h v 3
  have b4 := get_u16_lt h v 4
  have b5 := get_u16_lt h v 5
  have b6 := get_u16_lt h v 6
  have b7 := get_u16_lt h v 7
  cases h <;> fin_cases i <;>
    simp [cork_u128_be16, value, get_be64_hi, get_be64_lo, be64_hi_index, be64_lo_index,
      get_u64, get_u32, join] <;> omega

/-- C9. On either host the big-endian indexed accessors return the unit counted
from the most significant end of `N = value v`: `be8(v,i) = (N >> 8*(15-i)) mod 2^8`,
`be16(v,i) = (N >> 16*(7-i)) mod 2^16`, `be32(v,i) = (N >> 32*(3-i)) mod 2^32`,
`be64(v,i) = (N >> 64*(1-i)) mod 2^64`; in particular `be32` of
`from_32(i0,i1,i2,i3)` at `k` is `i_k` and `be64` of `from_64(j0,j1)` at `k` is
`j_k`. -/
theorem cork_u128_be_accessors (h : Endianness) (v u1 u2 : cork_u128)
    (k8 : Fin 16) (k16 : Fin 8) (k32 : Fin 4) (k64 : Fin 2) (i0 i1 i2 i3 j0 j1 : Nat)
    (h0 : i0 < 2 ^ 32) (h1 : i1 < 2 ^ 32) (h2 : i2 < 2 ^ 32) (h3 : i3 < 2 ^ 32)
    (g0 : j0 < 2 ^ 64) (g1 : j1 < 2 ^ 64) :
    cork_u128_be8 h v k8 = (value h v >>> (8 * (15 - k8.val))) % 2 ^ 8 ∧
    cork_u128_be16 h v k16 = (value h v >>> (16 * (7 - k16.val))) % 2 ^ 16 ∧
    cork_u128_be32 h v k32 = (value h v >>> (32 * (3 - k32.val))) % 2 ^ 32 ∧
    cork_u128_be64 h v k64 = (value h v >>> (64 * (1 - k64.val))) % 2 ^ 64 ∧
    cork_u128_be32 h (cork_u128_from_32 h u1 i0 i1 i2 i3) 0 = i0 ∧
    cork_u128_be32 h (cork_u128_from_32 h u1 i0 i1 i2 i3) 1 = i1 ∧
    cork_u128_be32 h (cork_u128_from_32 h u1 i0 i1 i2 i3) 2 = i2 ∧
    cork_u128_be32 h (cork_u128_from_32 h u1 i0 i1 i2 i3) 3 = i3 ∧
    cork_u128_be64 h (cork_u128_from_64 h u2 j0 j1) 0 = j0 ∧
    cork_u128_be64 h (cork_u128_from_64 h u2 j0 j1) 1 = j1 := by
  have e3 : ((3 : Fin 4) : Nat) = 3 := rfl
  simp only [Nat.shiftRight_eq_div_pow]
  refine ⟨be8_eq h v k8, be16_eq h v k16, be32_eq h v k32, be64_eq h v k64, ?_, ?_, ?_, ?_,
    ?_, ?_⟩
  · cases h <;> simp [cork_u128_be32, cork_u128_from_32, get_u32_set_u32] <;> omega
  · cases h <;> simp [cork_u128_be32, cork_u128_from_32, get_u32_set_u32] <;> omega
  · cases h <;> simp [cork_u128_be32, cork_u128_from_32, get_u32_set_u32] <;> omega
  · cases h <;> simp [cork_u128_be32, cork_u128_from_32, get_u32_set_u32, e3] <;> omega
  · cases h <;> simp [cork_u128_be64, cork_u128_from_64, get_u64_set_u64] <;> omega
  · cases h <;> simp [cork_u128_be64, cork_u128_from_64, get_u64_set_u64] <;> omega

/-- An instance of C9 on a little-endian host. -/
theorem cork_u128_be_accessors_witness :
    cork_u128_be8 CORK_LITTLE_ENDIAN zeroed 0
        = (value CORK_LITTLE_ENDIAN zeroed >>> (8 * (15 - (0 : Fin 16).val))) % 2 ^ 8 ∧
    cork_u128_be16 CORK_LITTLE_ENDIAN zeroed 0
        = (value CORK_LITTLE_ENDIAN zeroed >>> (16 * (7 - (0 : Fin 8).val))) % 2 ^ 16 ∧
    cork_u128_be32 CORK_LITTLE_ENDIAN zeroed 0
        = (value CORK_LITTLE_ENDIAN zeroed >>> (32 * (3 - (0 : Fin 4).val))) % 2 ^ 32 ∧
    cork_u128_be64 CORK_LITTLE_ENDIAN zeroed 0
        = (value CORK_LITTLE_ENDIAN zeroed >>> (64 * (1 - (0 : Fin 2).val))) % 2 ^ 64 ∧
    cork_u128_be32 CORK_LITTLE_ENDIAN (cork_u128_from_32 CORK_LITTLE_ENDIAN zeroed 1 2 3 4) 0 = 1 ∧
    cork_u128_be32 CORK_LITTLE_ENDIAN (cork_u128_from_32 CORK_LITTLE_ENDIAN zeroed 1 2 3 4) 1 = 2 ∧
    cork_u128_be32 CORK_LITTLE_ENDIAN (cork_u128_from_32 CORK_LITTLE_ENDIAN zeroed 1 2 3 4) 2 = 3 ∧
    cork_u128_be32 CORK_LITTLE_ENDIAN (cork_u128_from_32 CORK_LITTLE_ENDIAN zeroed 1 2 3 4) 3 = 4 ∧
    cork_u128_be64 CORK_LITTLE_ENDIAN (cork_u128_from_64 CORK_LITTLE_ENDIAN zeroed 5 6) 0 = 5 ∧
    cork_u128_be64 CORK_LITTLE_ENDIAN (cork_u128_from_64 CORK_LITTLE_ENDIAN zeroed 5 6) 1 = 6 :=
  cork_u128_be_accessors CORK_LITTLE_ENDIAN zeroed zeroed zeroed 0 0 0 0 1 2 3 4 5 6
    (by decide) (by decide) (by decide) (by decide) (by decide) (by decide)

/-- The value of an object all four of whose 32-bit limbs have been assigned,
on a little-endian host, whatever it held before. -/
theorem value_set_u32_little (r : cork_u128) (W w X x : Nat) :
    value CORK_LITTLE_ENDIAN
        (set_u32 CORK_LITTLE_ENDIAN (set_u32 CORK_LITTLE_ENDIAN (set_u32 CORK_LITTLE_ENDIAN
          (set_u32 CORK_LITTLE_ENDIAN r 3 W) 2 w) 1 X) 0 x)
      = W % 2 ^ 32 * 2 ^ 96 + w % 2 ^ 32 * 2 ^ 64 + X % 2 ^ 32 * 2 ^ 32 + x % 2 ^ 32 := by
  rw [value_eq_u32]
  simp [get_u32_set_u32]


/-- With 32-bit pieces, none of the `uint64_t` additions in the column sums of
`cork_u128_mul` wraps. -/
theorem columns_no_wrap (E e F f G g h I i J j k M m n q : Nat)
    (hE : E < 2 ^ 32) (he : e < 2 ^ 32) (hF : F < 2 ^ 32) (hf : f < 2 ^ 32)
    (hG : G < 2 ^ 32) (hg : g < 2 ^ 32) (hh : h < 2 ^ 32) (hI : I < 2 ^ 32)
    (hi : i < 2 ^ 32) (hJ : J < 2 ^ 32) (hj : j < 2 ^ 32) (hk : k < 2 ^ 32)
    (hM : M < 2 ^ 32) (hm : m < 2 ^ 32) (hn : n < 2 ^ 32) (hq : q < 2 ^ 32) :
    add64 (add64 (add64 E f) i) (e / 2 ^ 32) = E + f + i ∧
    add64 (add64 (add64 (add64 (add64 F g) I) j) m) ((E + f + i) / 2 ^ 32)
      = F + g + I + j + m + (E + f + i) / 2 ^ 32 ∧
    add64 (add64 (add64 (add64 (add64 (add64 (add64 G h) J) k) M) n) q)
        ((F + g + I + j + m + (E + f + i) / 2 ^ 32) / 2 ^ 32)
      = G + h + J + k + M + n + q + (F + g + I + j + m + (E + f + i) / 2 ^ 32) / 2 ^ 32 := by
  have small : ∀ x y : Nat, x + y < 2 ^ 64 → add64 x y = x + y :=
    fun x y hxy => Nat.mod_eq_of_lt hxy
  refine ⟨?_, ?_, ?_⟩
  · rw [small E f (by omega), small _ i (by omega), small _ _ (by omega)]
    omega
  · rw [small F g (by omega), small _ I (by omega), small _ j (by omega), small _ m (by omega),
      small _ _ (by omega)]
  · rw [small G h (by omega), small _ J (by omega), small _ k (by omega), small _ M (by omega),
      small _ n (by omega), small _ q (by omega), small _ _ (by omega)]

/-- Carrying from column to column and cutting each column to 32 bits gives the
low 128 bits of the weighted sum of the columns. -/
theorem columns_digits (e X w W T : Nat) (he : e < 2 ^ 32) :
    (W + (w + X / 2 ^ 32) / 2 ^ 32) % 2 ^ 32 * 2 ^ 96 + (w + X / 2 ^ 32) % 2 ^ 32 * 2 ^ 64
        + X % 2 ^ 32 * 2 ^ 32 + e % 2 ^ 32
      = (e + X * 2 ^ 32 + w * 2 ^ 64 + W * 2 ^ 96 + 2 ^ 128 * T) % 2 ^ 128 := by
  omega


/-- A product of two 32-bit limbs fits in 64 bits, and so do its two halves in
32 bits each. -/
theorem mul64_limbs (p q : Nat) (hp : p < 2 ^ 32) (hq : q < 2 ^ 32) :
    mul64 p q = p * q ∧ p * q / 2 ^ 32 < 2 ^ 32 ∧ p * q % 2 ^ 32 < 2 ^ 32 := by
  have hpq : p * q ≤ (2 ^ 32 - 1) * (2 ^ 32 - 1) := Nat.mul_le_mul (by omega) (by omega)
  unfold mul64
  generalize p * q = r at *
  refine ⟨Nat.mod_eq_of_lt (by omega), by omega, by omega⟩

/-- Regrouping the ten partial products by column. -/
theorem columns_sum (q0 q1 q2 q3 q4 q5 q6 q7 q8 q9 rest : Nat) :
    q0 + (q1 + q4) * 2 ^ 32 + (q2 + q5 + q7) * 2 ^ 64 + (q3 + q6 + q8 + q9) * 2 ^ 96
        + 2 ^ 128 * rest
      = q0 % 2 ^ 32 + (q0 / 2 ^ 32 + q1 % 2 ^ 32 + q4 % 2 ^ 32) * 2 ^ 32
        + (q1 / 2 ^ 32 + q2 % 2 ^ 32 + q4 / 2 ^ 32 + q5 % 2 ^ 32 + q7 % 2 ^ 32) * 2 ^ 64
        + (q2 / 2 ^ 32 + q3 % 2 ^ 32 + q5 / 2 ^ 32 + q6 % 2 ^ 32 + q7 / 2 ^ 32 + q8 % 2 ^ 32
            + q9 % 2 ^ 32) * 2 ^ 96
        + 2 ^ 128 * (q3 / 2 ^ 32 + q6 / 2 ^ 32 + q8 / 2 ^ 32 + q9 / 2 ^ 32 + rest) := by
  omega

/-- The column sums of `cork_u128_mul`, cut to 32 bits each, are the low 128 bits
of the product of the two numbers the limbs spell. -/
theorem mul_columns_value (A a B b C c D d : Nat)
    (hA : A < 2 ^ 32) (ha : a < 2 ^ 32) (hB : B < 2 ^ 32) (hb : b < 2 ^ 32)
    (hC : C < 2 ^ 32) (hc : c < 2 ^ 32) (hD : D < 2 ^ 32) (hd : d < 2 ^ 32) :
    (mul_columns A a B b C c D d).2.2.2 % 2 ^ 32 * 2 ^ 96
        + (mul_columns A a B b C c D d).2.2.1 % 2 ^ 32 * 2 ^ 64
        + (mul_columns A a B b C c D d).2.1 % 2 ^ 32 * 2 ^ 32
        + (mul_columns A a B b C c D d).1 % 2 ^ 32
      = ((A * 2 ^ 96 + a * 2 ^ 64 + B * 2 ^ 32 + b) * (C * 2 ^ 96 + c * 2 ^ 64 + D * 2 ^ 32 + d))
          % 2 ^ 128 := by
  have expand : (A * 2 ^ 96 + a * 2 ^ 64 + B * 2 ^ 32 + b) * (C * 2 ^ 96 + c * 2 ^ 64 + D * 2 ^ 32 + d)
      = b * d + (B * d + b * D) * 2 ^ 32 + (a * d + B * D + b * c) * 2 ^ 64
        + (A * d + a * D + B * c + b * C) * 2 ^ 96
        + 2 ^ 128 * (A * D + a * c + B * C + (A * c + a * C) * 2 ^ 32 + A * C * 2 ^ 64) := by
    ring
  obtain ⟨m0, E0, e0⟩ := mul64_limbs b d hb hd
  obtain ⟨m1, E1, e1⟩ := mul64_limbs B d hB hd
  obtain ⟨m2, E2, e2⟩ := mul64_limbs a d ha hd
  obtain ⟨m3, _, e3⟩ := mul64_limbs A d hA hd
  obtain ⟨m4, E4, e4⟩ := mul64_limbs b D hb hD
  obtain ⟨m5, E5, e5⟩ := mul64_limbs B D hB hD
  obtain ⟨m6, _, e6⟩ := mul64_limbs a D ha hD
  obtain ⟨m7, E7, e7⟩ := mul64_limbs b c hb hc
  obtain ⟨m8, _, e8⟩ := mul64_limbs B c hB hc
  obtain ⟨m9, _, e9⟩ := mul64_limbs b C hb hC
  obtain ⟨cX, cw, cW⟩ := columns_no_wrap (b * d / 2 ^ 32) (b * d % 2 ^ 32) (B * d / 2 ^ 32)
    (B * d % 2 ^ 32) (a * d / 2 ^ 32) (a * d % 2 ^ 32) (A * d % 2 ^ 32) (b * D / 2 ^ 32)
    (b * D % 2 ^ 32) (B * D / 2 ^ 32) (B * D % 2 ^ 32) (a * D % 2 ^ 32) (b * c / 2 ^ 32)
    (b * c % 2 ^ 32) (B * c % 2 ^ 32) (b * C % 2 ^ 32)
    E0 e0 E1 e1 E2 e2 e3 E4 e4 E5 e5 e6 E7 e7 e8 e9
  simp only [mul_columns, (shr32_and32 _).1, (shr32_and32 _).2, m0, m1, m2, m3, m4, m5, m6, m7,
    m8, m9, cX, cw, cW]
  rw [expand, columns_sum]
  exact columns_digits _ _ _ _ _ e0

/-- The value `cork_u128_mul` returns on a little-endian host, in either
build. -/
theorem value_mul_little (native : Bool) (uninit lhs rhs : cork_u128) :
    value CORK_LITTLE_ENDIAN (cork_u128_mul ⟨CORK_LITTLE_ENDIAN, native⟩ uninit lhs rhs)
      = (value CORK_LITTLE_ENDIAN lhs * value CORK_LITTLE_ENDIAN rhs) % 2 ^ 128 := by
  have key := mul_columns_value
    (get_u32 CORK_LITTLE_ENDIAN lhs 3) (get_u32 CORK_LITTLE_ENDIAN lhs 2)
    (get_u32 CORK_LITTLE_ENDIAN lhs 1) (get_u32 CORK_LITTLE_ENDIAN lhs 0)
    (get_u32 CORK_LITTLE_ENDIAN rhs 3) (get_u32 CORK_LITTLE_ENDIAN rhs 2)
    (get_u32 CORK_LITTLE_ENDIAN rhs 1) (get_u32 CORK_LITTLE_ENDIAN rhs 0)
    (get_u32_lt _ _ _) (get_u32_lt _ _ _) (get_u32_lt _ _ _) (get_u32_lt _ _ _)
    (get_u32_lt _ _ _) (get_u32_lt _ _ _) (get_u32_lt _ _ _) (get_u32_lt _ _ _)
  rw [value_eq_u32 CORK_LITTLE_ENDIAN lhs, value_eq_u32 CORK_LITTLE_ENDIAN rhs]
  simp only [cork_u128_mul, value_set_u32_little]
  exact key

/-- C1. On a little-endian host, in the build with the native 128-bit type and
in the build without it, `cork_u128_mul(lhs, rhs)` has the value
`(value lhs * value rhs) mod 2 ^ 128`, whatever the local `result` held before;
and `mul(from_64(1,0), from_64(1,0)) = from_64(0,0)`. -/
theorem cork_u128_mul_little_endian_correct (native : Bool)
    (uninit lhs rhs u1 u2 u3 : cork_u128) :
    value CORK_LITTLE_ENDIAN (cork_u128_mul ⟨CORK_LITTLE_ENDIAN, native⟩ uninit lhs rhs)
      = (value CORK_LITTLE_ENDIAN lhs * value CORK_LITTLE_ENDIAN rhs) % 2 ^ 128 ∧
    cork_u128_mul ⟨CORK_LITTLE_ENDIAN, native⟩ uninit
        (cork_u128_from_64 CORK_LITTLE_ENDIAN u1 1 0) (cork_u128_from_64 CORK_LITTLE_ENDIAN u2 1 0)
      = cork_u128_from_64 CORK_LITTLE_ENDIAN u3 0 0 := by
  refine ⟨value_mul_little native uninit lhs rhs, ?_⟩
  apply eq_of_value_eq CORK_LITTLE_ENDIAN
  simp only [value_mul_little, value_from_64]
  norm_num

/-- The value of an object all four of whose 32-bit limbs have been assigned,
on a big-endian host, whatever it held before: `u32[0]` is the most
significant limb there. -/
theorem value_set_u32_big (r : cork_u128) (W w X x : Nat) :
    value CORK_BIG_ENDIAN
        (set_u32 CORK_BIG_ENDIAN (set_u32 CORK_BIG_ENDIAN (set_u32 CORK_BIG_ENDIAN
          (set_u32 CORK_BIG_ENDIAN r 3 W) 2 w) 1 X) 0 x)
      = x % 2 ^ 32 * 2 ^ 96 + X % 2 ^ 32 * 2 ^ 64 + w % 2 ^ 32 * 2 ^ 32 + W % 2 ^ 32 := by
  rw [value_eq_u32]
  simp [get_u32_set_u32]

/-- The 32-bit limbs, by address, of `cork_u128_from_64(i0, i1)` on a big-endian
host. -/
theorem get_u32_from_64_big (u : cork_u128) (i0 i1 : Nat) :
    get_u32 CORK_BIG_ENDIAN (cork_u128_from_64 CORK_BIG_ENDIAN u i0 i1) 0 = i0 % 2 ^ 64 / 2 ^ 32 ∧
    get_u32 CORK_BIG_ENDIAN (cork_u128_from_64 CORK_BIG_ENDIAN u i0 i1) 1 = i0 % 2 ^ 32 ∧
    get_u32 CORK_BIG_ENDIAN (cork_u128_from_64 CORK_BIG_ENDIAN u i0 i1) 2 = i1 % 2 ^ 64 / 2 ^ 32 ∧
    get_u32 CORK_BIG_ENDIAN (cork_u128_from_64 CORK_BIG_ENDIAN u i0 i1) 3 = i1 % 2 ^ 32 := by
  have e3 : ((3 : Fin 4) : Nat) = 3 := rfl
  refine ⟨?_, ?_, ?_, ?_⟩ <;>
    simp [cork_u128_from_64, set_u64, get_u32_set_u32, Fin.ext_iff, e3] <;> omega

/-- C10. On a big-endian host `cork_u128_mul` reads `u32[3]`, the least
significant limb there, as the most significant limb `A`: in either build
`mul(from_64(0,2), from_64(0,3))` is `from_64(0,0)`, not `from_64(0,6)`. -/
theorem cork_u128_mul_big_endian_two_three (native : Bool) (uninit u1 u2 u3 : cork_u128) :
    cork_u128_mul ⟨CORK_BIG_ENDIAN, native⟩ uninit
        (cork_u128_from_64 CORK_BIG_ENDIAN u1 0 2) (cork_u128_from_64 CORK_BIG_ENDIAN u2 0 3)
      = cork_u128_from_64 CORK_BIG_ENDIAN u3 0 0 ∧
    cork_u128_mul ⟨CORK_BIG_ENDIAN, native⟩ uninit
        (cork_u128_from_64 CORK_BIG_ENDIAN u1 0 2) (cork_u128_from_64 CORK_BIG_ENDIAN u2 0 3)
      ≠ cork_u128_from_64 CORK_BIG_ENDIAN u3 0 6 := by
  have hv : value CORK_BIG_ENDIAN (cork_u128_mul ⟨CORK_BIG_ENDIAN, native⟩ uninit
      (cork_u128_from_64 CORK_BIG_ENDIAN u1 0 2) (cork_u128_from_64 CORK_BIG_ENDIAN u2 0 3)) = 0 := by
    obtain ⟨a0, a1, a2, a3⟩ := get_u32_from_64_big u1 0 2
    obtain ⟨b0, b1, b2, b3⟩ := get_u32_from_64_big u2 0 3
    simp only [cork_u128_mul, value_set_u32_big, a0, a1, a2, a3, b0, b1, b2, b3]
    decide
  constructor
  · apply eq_of_value_eq CORK_BIG_ENDIAN
    rw [hv, value_from_64]
    norm_num
  · intro hEq
    have := congrArg (value CORK_BIG_ENDIAN) hEq
    rw [hv, value_from_64] at this
    revert this
    decide

/-- After the native member is assigned the object stands for the stored
number, whatever it held before. -/
theorem value_set_u128 (h : Endianness) (v : cork_u128) (x : Nat) :
    value h (set_u128 h v x) = x % 2 ^ 128 := by
  cases h <;>
    simp [value, set_u128, get_be64_hi, get_be64_lo, be64_hi_index, be64_lo_index,
      get_u64_set_u64] <;> omega

/-- C12. Without the native 128-bit type, `cork_u128_div` and `cork_u128_mod`
reach `abort()` for every pair of operands, on either host and whatever the
local `result` held: the outcome is `none`, never a 128-bit value. -/
theorem cork_u128_div_mod_unsupported (h : Endianness) (uninit a b : cork_u128) :
    cork_u128_div ⟨h, false⟩ uninit a b = none ∧
    cork_u128_mod ⟨h, false⟩ uninit a b = none ∧
    (∀ r : cork_u128, cork_u128_div ⟨h, false⟩ uninit a b ≠ some r) ∧
    (∀ r : cork_u128, cork_u128_mod ⟨h, false⟩ uninit a b ≠ some r) := by
  refine ⟨rfl, rfl, ?_, ?_⟩ <;> intro r hr <;> simp [cork_u128_div, cork_u128_mod] at hr

/-- C14. On either host, the 64-bit-halves path of `cork_u128_add` is
associative as an equality of objects, wrapped sums included. -/
theorem cork_u128_add_assoc (h : Endianness) (u1 u2 u3 u4 a b c : cork_u128) :
    cork_u128_add ⟨h, false⟩ u1 (cork_u128_add ⟨h, false⟩ u2 a b) c
      = cork_u128_add ⟨h, false⟩ u3 a (cork_u128_add ⟨h, false⟩ u4 b c) := by
  apply eq_of_value_eq h
  simp only [value_add_halves]
  omega

/-- C15. On either host and on the 64-bit-halves paths,
`add(a, from_64(0,0)) = a` and `sub(a, a) = from_64(0,0)`. -/
theorem cork_u128_add_zero_sub_self (h : Endianness) (u1 u2 u3 u4 a : cork_u128) :
    cork_u128_add ⟨h, false⟩ u1 a (cork_u128_from_64 h u2 0 0) = a ∧
    cork_u128_sub ⟨h, false⟩ u3 a a = cork_u128_from_64 h u4 0 0 := by
  have ha := value_lt h a
  constructor
  · apply eq_of_value_eq h
    rw [value_add_halves, value_from_64]
    omega
  · apply eq_of_value_eq h
    rw [value_sub_halves, value_from_64]
    omega

/-- C19. On either host and on the `be64.hi`/`be64.lo` paths:
`ne(a,b) = !eq(a,b)`, `gt(a,b) = lt(b,a)`, `ge(a,b) = le(b,a)` and
`ge(a,b) = !lt(a,b)`. -/
theorem cork_u128_compare_relations (h : Endianness) (a b : cork_u128) :
    cork_u128_ne ⟨h, false⟩ a b = !cork_u128_eq ⟨h, false⟩ a b ∧
    cork_u128_gt ⟨h, false⟩ a b = cork_u128_lt ⟨h, false⟩ b a ∧
    cork_u128_ge ⟨h, false⟩ a b = cork_u128_le ⟨h, false⟩ b a ∧
    cork_u128_ge ⟨h, false⟩ a b = !cork_u128_lt ⟨h, false⟩ a b := by
  simp only [cork_u128_eq, cork_u128_ne, cork_u128_lt, cork_u128_le, cork_u128_gt,
    cork_u128_ge, Bool.false_eq_true, if_false]
  generalize get_be64_hi h a = ah
  generalize get_be64_lo h a = al
  generalize get_be64_hi h b = bh
  generalize get_be64_lo h b = bl
  by_cases hh : ah = bh
  · subst hh
    refine ⟨?_, ?_, ?_, ?_⟩ <;> rw [Bool.eq_iff_iff] <;> simp
  · have hh2 : ¬ bh = ah := fun e => hh e.symm
    refine ⟨?_, ?_, ?_, ?_⟩ <;> rw [Bool.eq_iff_iff] <;> simp [hh, hh2]

/-- C20. On either host and on the 64-bit-halves paths, subtraction undoes
addition and addition undoes subtraction, wraparound included. -/
theorem cork_u128_sub_add_cancel (h : Endianness) (u1 u2 u3 u4 a b : cork_u128) :
    cork_u128_sub ⟨h, false⟩ u1 (cork_u128_add ⟨h, false⟩ u2 a b) b = a ∧
    cork_u128_add ⟨h, false⟩ u3 (cork_u128_sub ⟨h, false⟩ u4 a b) b = a := by
  have ha := value_lt h a
  have hb := value_lt h b
  constructor
  · apply eq_of_value_eq h
    rw [value_sub_halves, value_add_halves]
    omega
  · apply eq_of_value_eq h
    rw [value_add_halves, value_sub_halves]
    omega

/-- C13. On a little-endian host `cork_u128_add` (64-bit-halves path) and
`cork_u128_mul` (limb code, either build) are commutative: swapping the
operands gives the same object, hence the same four 32-bit limbs. -/
theorem cork_u128_add_mul_comm (native : Bool) (u1 u2 u3 u4 a b : cork_u128) (k : Fin 4) :
    cork_u128_add ⟨CORK_LITTLE_ENDIAN, false⟩ u1 a b
      = cork_u128_add ⟨CORK_LITTLE_ENDIAN, false⟩ u2 b a ∧
    cork_u128_mul ⟨CORK_LITTLE_ENDIAN, native⟩ u3 a b
      = cork_u128_mul ⟨CORK_LITTLE_ENDIAN, native⟩ u4 b a ∧
    get_u32 CORK_LITTLE_ENDIAN (cork_u128_add ⟨CORK_LITTLE_ENDIAN, false⟩ u1 a b) k
      = get_u32 CORK_LITTLE_ENDIAN (cork_u128_add ⟨CORK_LITTLE_ENDIAN, false⟩ u2 b a) k ∧
    get_u32 CORK_LITTLE_ENDIAN (cork_u128_mul ⟨CORK_LITTLE_ENDIAN, native⟩ u3 a b) k
      = get_u32 CORK_LITTLE_ENDIAN (cork_u128_mul ⟨CORK_LITTLE_ENDIAN, native⟩ u4 b a) k := by
  have hadd : cork_u128_add ⟨CORK_LITTLE_ENDIAN, false⟩ u1 a b
      = cork_u128_add ⟨CORK_LITTLE_ENDIAN, false⟩ u2 b a := by
    apply eq_of_value_eq CORK_LITTLE_ENDIAN
    rw [value_add_halves, value_add_halves, Nat.add_comm]
  have hmul : cork_u128_mul ⟨CORK_LITTLE_ENDIAN, native⟩ u3 a b
      = cork_u128_mul ⟨CORK_LITTLE_ENDIAN, native⟩ u4 b a := by
    apply eq_of_value_eq CORK_LITTLE_ENDIAN
    rw [value_mul_little, value_mul_little, Nat.mul_comm]
  exact ⟨hadd, hmul, by rw [hadd], by rw [hmul]⟩

/-- The value written by the native path of `cork_u128_add`. -/
theorem value_add_native (h : Endianness) (uninit a b : cork_u128) :
    value h (cork_u128_add ⟨h, true⟩ uninit a b) = (value h a + value h b) % 2 ^ 128 := by
  simp [cork_u128_add, value_set_u128, get_u128_eq_value]

/-- C11. On a little-endian host with the native 128-bit type, for every `a`
and every `b` whose value is not zero, `cork_u128_div` and `cork_u128_mod`
return objects `q` and `r` whose values are the exact quotient and remainder;
`add(mul(q, b), r)` is `a` and `lt(r, b)` is true. -/
theorem cork_u128_div_mod_native (u1 u2 u3 u4 a b : cork_u128)
    (hb : value CORK_LITTLE_ENDIAN b ≠ 0) :
    ∃ q r : cork_u128,
      cork_u128_div ⟨CORK_LITTLE_ENDIAN, true⟩ u1 a b = some q ∧
      cork_u128_mod ⟨CORK_LITTLE_ENDIAN, true⟩ u2 a b = some r ∧
      value CORK_LITTLE_ENDIAN q = value CORK_LITTLE_ENDIAN a / value CORK_LITTLE_ENDIAN b ∧
      value CORK_LITTLE_ENDIAN r = value CORK_LITTLE_ENDIAN a % value CORK_LITTLE_ENDIAN b ∧
      cork_u128_add ⟨CORK_LITTLE_ENDIAN, true⟩ u3
          (cork_u128_mul ⟨CORK_LITTLE_ENDIAN, true⟩ u4 q b) r = a ∧
      cork_u128_lt ⟨CORK_LITTLE_ENDIAN, true⟩ r b = true := by
  have ha := value_lt CORK_LITTLE_ENDIAN a
  have hdiv : value CORK_LITTLE_ENDIAN a / value CORK_LITTLE_ENDIAN b < 2 ^ 128 :=
    Nat.lt_of_le_of_lt (Nat.div_le_self _ _) ha
  have hmod : value CORK_LITTLE_ENDIAN a % value CORK_LITTLE_ENDIAN b
      < value CORK_LITTLE_ENDIAN b := Nat.mod_lt _ (Nat.pos_of_ne_zero hb)
  have hmod2 : value CORK_LITTLE_ENDIAN a % value CORK_LITTLE_ENDIAN b < 2 ^ 128 :=
    Nat.lt_of_le_of_lt (Nat.mod_le _ _) ha
  have hq : value CORK_LITTLE_ENDIAN (set_u128 CORK_LITTLE_ENDIAN u1
      (value CORK_LITTLE_ENDIAN a / value CORK_LITTLE_ENDIAN b))
      = value CORK_LITTLE_ENDIAN a / value CORK_LITTLE_ENDIAN b := by
    rw [value_set_u128, Nat.mod_eq_of_lt hdiv]
  have hr : value CORK_LITTLE_ENDIAN (set_u128 CORK_LITTLE_ENDIAN u2
      (value CORK_LITTLE_ENDIAN a % value CORK_LITTLE_ENDIAN b))
      = value CORK_LITTLE_ENDIAN a % value CORK_LITTLE_ENDIAN b := by
    rw [value_set_u128, Nat.mod_eq_of_lt hmod2]
  refine ⟨set_u128 CORK_LITTLE_ENDIAN u1
      (value CORK_LITTLE_ENDIAN a / value CORK_LITTLE_ENDIAN b),
    set_u128 CORK_LITTLE_ENDIAN u2
      (value CORK_LITTLE_ENDIAN a % value CORK_LITTLE_ENDIAN b), ?_, ?_, hq, hr, ?_, ?_⟩
  · simp [cork_u128_div, get_u128_eq_value, hb]
  · simp [cork_u128_mod, get_u128_eq_value, hb]
  · apply eq_of_value_eq CORK_LITTLE_ENDIAN
    rw [value_add_native, value_mul_little, hq, hr, Nat.mod_add_mod,
      Nat.div_add_mod' , Nat.mod_eq_of_lt ha]
  · simp only [cork_u128_lt, if_true, get_u128_eq_value, hr]
    exact decide_eq_true hmod

/-- An instance of C11: seven divided by two, on objects built by
`cork_u128_from_64`. -/
theorem cork_u128_div_mod_native_witness :
    ∃ q r : cork_u128,
      cork_u128_div ⟨CORK_LITTLE_ENDIAN, true⟩ zeroed
          (cork_u128_from_64 CORK_LITTLE_ENDIAN zeroed 0 7)
          (cork_u128_from_64 CORK_LITTLE_ENDIAN zeroed 0 2) = some q ∧
      cork_u128_mod ⟨CORK_LITTLE_ENDIAN, true⟩ zeroed
          (cork_u128_from_64 CORK_LITTLE_ENDIAN zeroed 0 7)
          (cork_u128_from_64 CORK_LITTLE_ENDIAN zeroed 0 2) = some r ∧
      value CORK_LITTLE_ENDIAN q
        = value CORK_LITTLE_ENDIAN (cork_u128_from_64 CORK_LITTLE_ENDIAN zeroed 0 7)
          / value CORK_LITTLE_ENDIAN (cork_u128_from_64 CORK_LITTLE_ENDIAN zeroed 0 2) ∧
      value CORK_LITTLE_ENDIAN r
        = value CORK_LITTLE_ENDIAN (cork_u128_from_64 CORK_LITTLE_ENDIAN zeroed 0 7)
          % value CORK_LITTLE_ENDIAN (cork_u128_from_64 CORK_LITTLE_ENDIAN zeroed 0 2) ∧
      cork_u128_add ⟨CORK_LITTLE_ENDIAN, true⟩ zeroed
          (cork_u128_mul ⟨CORK_LITTLE_ENDIAN, true⟩ zeroed q
            (cork_u128_from_64 CORK_LITTLE_ENDIAN zeroed 0 2)) r
        = cork_u128_from_64 CORK_LITTLE_ENDIAN zeroed 0 7 ∧
      cork_u128_lt ⟨CORK_LITTLE_ENDIAN, true⟩ r
          (cork_u128_from_64 CORK_LITTLE_ENDIAN zeroed 0 2) = true :=
  cork_u128_div_mod_native zeroed zeroed zeroed zeroed
    (cork_u128_from_64 CORK_LITTLE_ENDIAN zeroed 0 7)
    (cork_u128_from_64 CORK_LITTLE_ENDIAN zeroed 0 2)
    (by rw [value_from_64]; decide)

/-- With 32-bit pieces, the `uint64_t` column sums of `cork_u128_mul` equal the
sums over the naturals, and those stay below `2 ^ 64`. -/
theorem columns_eq_nat (E e F f G g h I i J j k M m n q : Nat)
    (hE : E < 2 ^ 32) (he : e < 2 ^ 32) (hF : F < 2 ^ 32) (hf : f < 2 ^ 32)
    (hG : G < 2 ^ 32) (hg : g < 2 ^ 32) (hh : h < 2 ^ 32) (hI : I < 2 ^ 32)
    (hi : i < 2 ^ 32) (hJ : J < 2 ^ 32) (hj : j < 2 ^ 32) (hk : k < 2 ^ 32)
    (hM : M < 2 ^ 32) (hm : m < 2 ^ 32) (hn : n < 2 ^ 32) (hq : q < 2 ^ 32) :
    (add64 (add64 (add64 E f) i) (e / 2 ^ 32) = E + f + i + e / 2 ^ 32 ∧
      E + f + i + e / 2 ^ 32 < 2 ^ 64) ∧
    (add64 (add64 (add64 (add64 (add64 F g) I) j) m) ((E + f + i + e / 2 ^ 32) / 2 ^ 32)
        = F + g + I + j + m + (E + f + i + e / 2 ^ 32) / 2 ^ 32 ∧
      F + g + I + j + m + (E + f + i + e / 2 ^ 32) / 2 ^ 32 < 2 ^ 64) ∧
    (add64 (add64 (add64 (add64 (add64 (add64 (add64 G h) J) k) M) n) q)
          ((F + g + I + j + m + (E + f + i + e / 2 ^ 32) / 2 ^ 32) / 2 ^ 32)
        = G + h + J + k + M + n + q
          + (F + g + I + j + m + (E + f + i + e / 2 ^ 32) / 2 ^ 32) / 2 ^ 32 ∧
      G + h + J + k + M + n + q
          + (F + g + I + j + m + (E + f + i + e / 2 ^ 32) / 2 ^ 32) / 2 ^ 32 < 2 ^ 64) := by
  have small : ∀ x y : Nat, x + y < 2 ^ 64 → add64 x y = x + y :=
    fun x y hxy => Nat.mod_eq_of_lt hxy
  refine ⟨⟨?_, by omega⟩, ⟨?_, by omega⟩, ⟨?_, by omega⟩⟩
  · rw [small E f (by omega), small _ i (by omega), small _ _ (by omega)]
  · rw [small F g (by omega), small _ I (by omega), small _ j (by omega), small _ m (by omega),
      small _ _ (by omega)]
  · rw [small G h (by omega), small _ J (by omega), small _ k (by omega), small _ M (by omega),
      small _ n (by omega), small _ q (by omega), small _ _ (by omega)]

/-- For 32-bit limbs the `uint64_t` computation of the column sums is the
computation over the naturals, and each natural column sum is below `2 ^ 64`. -/
theorem mul_columns_eq_nat (A a B b C c D d : Nat)
    (hA : A < 2 ^ 32) (ha : a < 2 ^ 32) (hB : B < 2 ^ 32) (hb : b < 2 ^ 32)
    (hC : C < 2 ^ 32) (hc : c < 2 ^ 32) (hD : D < 2 ^ 32) (hd : d < 2 ^ 32) :
    mul_columns A a B b C c D d = mul_columns_nat A a B b C c D d ∧
    (mul_columns_nat A a B b C c D d).1 < 2 ^ 64 ∧
    (mul_columns_nat A a B b C c D d).2.1 < 2 ^ 64 ∧
    (mul_columns_nat A a B b C c D d).2.2.1 < 2 ^ 64 ∧
    (mul_columns_nat A a B b C c D d).2.2.2 < 2 ^ 64 := by
  obtain ⟨m0, E0, e0⟩ := mul64_limbs b d hb hd
  obtain ⟨m1, E1, e1⟩ := mul64_limbs B d hB hd
  obtain ⟨m2, E2, e2⟩ := mul64_limbs a d ha hd
  obtain ⟨m3, _, e3⟩ := mul64_limbs A d hA hd
  obtain ⟨m4, E4, e4⟩ := mul64_limbs b D hb hD
  obtain ⟨m5, E5, e5⟩ := mul64_limbs B D hB hD
  obtain ⟨m6, _, e6⟩ := mul64_limbs a D ha hD
  obtain ⟨m7, E7, e7⟩ := mul64_limbs b c hb hc
  obtain ⟨m8, _, e8⟩ := mul64_limbs B c hB hc
  obtain ⟨m9, _, e9⟩ := mul64_limbs b C hb hC
  obtain ⟨⟨cX, lX⟩, ⟨cw, lw⟩, ⟨cW, lW⟩⟩ := columns_eq_nat (b * d / 2 ^ 32) (b * d % 2 ^ 32)
    (B * d / 2 ^ 32) (B * d % 2 ^ 32) (a * d / 2 ^ 32) (a * d % 2 ^ 32) (A * d % 2 ^ 32)
    (b * D / 2 ^ 32) (b * D % 2 ^ 32) (B * D / 2 ^ 32) (B * D % 2 ^ 32) (a * D % 2 ^ 32)
    (b * c / 2 ^ 32) (b * c % 2 ^ 32) (B * c % 2 ^ 32) (b * C % 2 ^ 32)
    E0 e0 E1 e1 E2 e2 e3 E4 e4 E5 e5 e6 E7 e7 e8 e9
  simp only [mul_columns, mul_columns_nat, (shr32_and32 _).1, (shr32_and32 _).2, m0, m1, m2,
    m3, m4, m5, m6, m7, m8, m9, cX, cw, cW]
  exact ⟨trivial, Nat.lt_trans e0 (by decide), lX, lw, lW⟩

/-- C18. In `cork_u128_mul`, on either host and for all operands, none of the
ten limb products and none of the column sums `x`, `X`, `w`, `W` reaches
`2 ^ 64` when computed over the naturals, so the `uint64_t` computation of the
source equals the computation over the naturals: nothing is discarded before
the four results are cut to 32-bit limbs. -/
theorem cork_u128_mul_no_wrap (h : Endianness) (lhs rhs : cork_u128) :
    let A := get_u32 h lhs 3
    let a := get_u32 h lhs 2
    let B := get_u32 h lhs 1
    let b := get_u32 h lhs 0
    let C := get_u32 h rhs 3
    let c := get_u32 h rhs 2
    let D := get_u32 h rhs 1
    let d := get_u32 h rhs 0
    (b * d < 2 ^ 64 ∧ B * d < 2 ^ 64 ∧ a * d < 2 ^ 64 ∧ A * d < 2 ^ 64 ∧ b * D < 2 ^ 64 ∧
      B * D < 2 ^ 64 ∧ a * D < 2 ^ 64 ∧ b * c < 2 ^ 64 ∧ B * c < 2 ^ 64 ∧ b * C < 2 ^ 64) ∧
    (mul_columns_nat A a B b C c D d).1 < 2 ^ 64 ∧
    (mul_columns_nat A a B b C c D d).2.1 < 2 ^ 64 ∧
    (mul_columns_nat A a B b C c D d).2.2.1 < 2 ^ 64 ∧
    (mul_columns_nat A a B b C c D d).2.2.2 < 2 ^ 64 ∧
    mul_columns A a B b C c D d = mul_columns_nat A a B b C c D d := by
  intro A a B b C c D d
  have hA : A < 2 ^ 32 := get_u32_lt h lhs 3
  have ha : a < 2 ^ 32 := get_u32_lt h lhs 2
  have hB : B < 2 ^ 32 := get_u32_lt h lhs 1
  have hb : b < 2 ^ 32 := get_u32_lt h lhs 0
  have hC : C < 2 ^ 32 := get_u32_lt h rhs 3
  have hc : c < 2 ^ 32 := get_u32_lt h rhs 2
  have hD : D < 2 ^ 32 := get_u32_lt h rhs 1
  have hd : d < 2 ^ 32 := get_u32_lt h rhs 0
  have prod : ∀ p q : Nat, p < 2 ^ 32 → q < 2 ^ 32 → p * q < 2 ^ 64 := by
    intro p q hp hq
    have hpq : p * q ≤ (2 ^ 32 - 1) * (2 ^ 32 - 1) := Nat.mul_le_mul (by omega) (by omega)
    exact Nat.lt_of_le_of_lt hpq (by decide)
  obtain ⟨heq, l1, l2, l3, l4⟩ := mul_columns_eq_nat A a B b C c D d hA ha hB hb hC hc hD hd
  exact ⟨⟨prod b d hb hd, prod B d hB hd, prod a d ha hd, prod A d hA hd, prod b D hb hD,
    prod B D hB hD, prod a D ha hD, prod b c hb hc, prod B c hB hc, prod b C hb hC⟩,
    l1, l2, l3, l4, heq⟩

/-- A number below `b ^ k` has at most `k` digits in base `b`. -/
theorem digits_length_le_of_lt_pow (b k n : Nat) (hb : 1 < b) (hn : n < b ^ k) :
    (Nat.digits b n).length ≤ k := by
  by_cases h0 : n = 0
  · simp [h0]
  · have h1 := Nat.base_pow_length_digits_le b n hb h0
    by_contra hc
    have hk : k + 1 ≤ (Nat.digits b n).length := by omega
    have h2 : b ^ (k + 1) ≤ b ^ (Nat.digits b n).length := Nat.pow_le_pow_right (by omega) hk
    have h3 : b ^ (k + 1) = b ^ k * b := pow_succ b k
    have h5 : b * n < b * b ^ k := Nat.mul_lt_mul_of_pos_left hn (by omega)
    have h6 : b ^ k * b = b * b ^ k := Nat.mul_comm _ _
    omega

/-- The character of a decimal digit is a digit character, reads back as that
digit, and is the character zero only for the digit zero. -/
theorem digitChar_decimal (d : Nat) (hd : d < 10) :
    (Nat.digitChar d).isDigit = true ∧ (Nat.digitChar d).toNat - '0'.toNat = d ∧
      (Nat.digitChar d = '0' ↔ d = 0) := by
  interval_cases d <;> decide

/-- A digit character reads as a number up to nine. -/
theorem isDigit_value_le (c : Char) (hc : c.isDigit = true) : c.toNat - '0'.toNat ≤ 9 := by
  simp only [Char.isDigit, Bool.and_eq_true, decide_eq_true_eq] at hc
  have h2 : c.val.toNat ≤ 57 := hc.2
  show c.val.toNat - 48 ≤ 9
  omega

/-- What `String.toNat?` computes, on the list of characters. -/
theorem string_mk_toNat (l : List Char) :
    (String.mk l).toNat? =
      if l ≠ [] ∧ l.all Char.isDigit = true then
        some (l.foldl (fun n c => n * 10 + (c.toNat - '0'.toNat)) 0)
      else none := by
  have hne : (String.mk l).isEmpty = true ↔ l = [] := by
    rw [String.isEmpty_iff]
    constructor
    · intro hh
      exact congrArg String.data hh
    · intro hh
      rw [hh]
  unfold String.toNat? String.isNat
  rw [String.foldl_eq, String.all_eq]
  by_cases hl : l = []
  · subst hl
    rfl
  · have : (String.mk l).isEmpty = false := by
      rw [Bool.eq_false_iff]
      exact fun hh => hl (hne.1 hh)
    simp [this, hl]

/-- Reading the characters of a list of decimal digits, most significant
first, gives the number those digits spell. -/
theorem foldl_render (l : List Nat) (hl : ∀ d ∈ l, d < 10) :
    (l.reverse.map Nat.digitChar).foldl (fun n c => n * 10 + (c.toNat - '0'.toNat)) 0
      = Nat.ofDigits 10 l := by
  induction l with
  | nil => rfl
  | cons d t ih =>
    have hd := (digitChar_decimal d (hl d (List.mem_cons_self d t))).2.1
    have ht := ih (fun x hx => hl x (List.mem_cons_of_mem d hx))
    rw [List.reverse_cons, List.map_append, List.foldl_append, ht, Nat.ofDigits_cons]
    simp only [List.map_cons, List.map_nil, List.foldl_cons, List.foldl_nil, hd]
    omega

/-- Reading `k` digit characters gives a number below `10 ^ k`. -/
theorem foldl_lt (l : List Char) (hl : ∀ c ∈ l, c.isDigit = true) (acc : Nat) :
    l.foldl (fun n c => n * 10 + (c.toNat - '0'.toNat)) acc < (acc + 1) * 10 ^ l.length := by
  induction l generalizing acc with
  | nil => simp
  | cons c t ih =>
    have hc := isDigit_value_le c (hl c (List.mem_cons_self c t))
    have ht := ih (fun x hx => hl x (List.mem_cons_of_mem c hx)) (acc * 10 + (c.toNat - '0'.toNat))
    rw [List.foldl_cons, List.length_cons]
    have hle : (acc * 10 + (c.toNat - '0'.toNat) + 1) * 10 ^ t.length
        ≤ ((acc + 1) * 10) * 10 ^ t.length := Nat.mul_le_mul_right _ (by omega)
    have he : (acc + 1) * 10 ^ (t.length + 1) = ((acc + 1) * 10) * 10 ^ t.length := by
      rw [pow_succ]; ring
    omega


/-- A nonzero number has at least one digit character. -/
theorem render_ne_nil (n : Nat) (hn : n ≠ 0) :
    (Nat.digits 10 n).reverse.map Nat.digitChar ≠ [] := by
  simp [Nat.digits_ne_nil_iff_ne_zero, hn]

/-- Every character written for a number is a digit character. -/
theorem render_all_digits (n : Nat) :
    ((Nat.digits 10 n).reverse.map Nat.digitChar).all Char.isDigit = true := by
  rw [List.all_eq_true]
  intro c hc
  obtain ⟨d, hd, rfl⟩ := List.mem_map.1 hc
  exact (digitChar_decimal d (Nat.digits_lt_base (by decide) (List.mem_reverse.1 hd))).1

/-- Reading the decimal string of `n` gives `n` back. -/
theorem decimal_string_toNat (n : Nat) : (decimal_string n).toNat? = some n := by
  unfold decimal_string
  by_cases hn : n = 0
  · subst hn
    rw [if_pos rfl]
    show (String.mk ['0']).toNat? = some 0
    rw [string_mk_toNat]
    decide
  · rw [if_neg hn, string_mk_toNat, if_pos ⟨render_ne_nil n hn, render_all_digits n⟩,
      foldl_render _ (fun d hd => Nat.digits_lt_base (by decide) hd), Nat.ofDigits_digits]

/-- The first character of the decimal string of `n` is `0` only for `n = 0`. -/
theorem decimal_string_head (n : Nat) :
    (decimal_string n).data.head? = some '0' ↔ n = 0 := by
  unfold decimal_string
  by_cases hn : n = 0
  · subst hn
    simp
  · rw [if_neg hn]
    have hnil : Nat.digits 10 n ≠ [] := Nat.digits_ne_nil_iff_ne_zero.2 hn
    have hlast := Nat.getLast_digit_ne_zero 10 hn
    have hmem : (Nat.digits 10 n).getLast hnil ∈ Nat.digits 10 n := List.getLast_mem hnil
    have hlt := Nat.digits_lt_base (by decide : 1 < 10) hmem
    have hchar := (digitChar_decimal _ hlt).2.2
    have hhead : ((Nat.digits 10 n).reverse.map Nat.digitChar).head?
        = some (Nat.digitChar ((Nat.digits 10 n).getLast hnil)) := by
      rw [List.head?_map, List.head?_reverse, List.getLast?_eq_getLast _ hnil]
      rfl
    show ((Nat.digits 10 n).reverse.map Nat.digitChar).head? = some '0' ↔ n = 0
    rw [hhead]
    constructor
    · intro hh
      exact absurd (hchar.1 (Option.some.inj hh)) hlast
    · intro hh
      exact absurd hh hn

/-- The decimal string of `n` is `"0"` only for `n = 0`. -/
theorem decimal_string_eq_zero (n : Nat) : decimal_string n = "0" ↔ n = 0 := by
  constructor
  · intro hh
    apply (decimal_string_head n).1
    rw [hh]
    rfl
  · intro hh
    subst hh
    rfl

/-- The decimal string of `n` has as many characters as `n` has decimal
digits, and one character for `n = 0`. -/
theorem decimal_string_length (n : Nat) :
    (decimal_string n).length = max 1 (Nat.digits 10 n).length := by
  unfold decimal_string
  by_cases hn : n = 0
  · subst hn
    simp
    rfl
  · rw [if_neg hn]
    have hnil : Nat.digits 10 n ≠ [] := Nat.digits_ne_nil_iff_ne_zero.2 hn
    have hpos : 0 < (Nat.digits 10 n).length := List.length_pos.2 hnil
    simp only [String.length_mk, List.length_map, List.length_reverse]
    omega

/-- No string of decimal digits that reads as `n` is shorter than the decimal
string of `n`. -/
theorem decimal_string_shortest (n : Nat) (s : String) (hs : s.toNat? = some n) :
    (decimal_string n).length ≤ s.length := by
  have hs2 : (String.mk s.data).toNat? = some n := hs
  rw [string_mk_toNat] at hs2
  by_cases hc : s.data ≠ [] ∧ s.data.all Char.isDigit = true
  · rw [if_pos hc] at hs2
    have hval := Option.some.inj hs2
    have hlt := foldl_lt s.data (fun c hcm => List.all_eq_true.1 hc.2 c hcm) 0
    rw [hval] at hlt
    have hlen : 0 < s.data.length := List.length_pos.2 hc.1
    have hdig := digits_length_le_of_lt_pow 10 s.data.length n (by decide) (by simpa using hlt)
    rw [decimal_string_length]
    show max 1 (Nat.digits 10 n).length ≤ s.data.length
    omega
  · rw [if_neg hc] at hs2
    exact absurd hs2 (by simp)


/-- The base-10 logarithm fact behind the decimal buffer length. -/
theorem ceil_128_log10_2 : ⌈(128 : ℝ) * Real.logb 10 2⌉ = 39 := by
  have e : (128 : ℝ) * Real.logb 10 2 = Real.logb 10 ((2 : ℝ) ^ 128) := by
    rw [Real.logb_pow]; norm_num
  rw [e, Int.ceil_eq_iff]
  constructor
  · rw [Real.lt_logb_iff_rpow_lt (by norm_num) (by positivity)]
    have : ((39 : ℤ) : ℝ) - 1 = ((38 : ℕ) : ℝ) := by norm_num
    rw [this, Real.rpow_natCast]
    norm_num
  · rw [Real.logb_le_iff_le_rpow (by norm_num) (by positivity)]
    have : ((39 : ℤ) : ℝ) = ((39 : ℕ) : ℝ) := by norm_num
    rw [this, Real.rpow_natCast]
    norm_num

/-- C16. On either host every `cork_u128` value has at most 39 decimal digits
and at most 32 hexadecimal digits, so its digits (one digit for zero) and one
terminator fit in `CORK_U128_DECIMAL_LENGTH = 44` and `CORK_U128_HEX_LENGTH = 33`
units; `39 = ⌈128 * log10 2⌉`, `39 + 1 ≤ 44` and `32 + 1 ≤ 33`. -/
theorem cork_u128_buffer_lengths (h : Endianness) (v : cork_u128) :
    (Nat.digits 10 (value h v)).length ≤ 39 ∧
    (Nat.digits 16 (value h v)).length ≤ 32 ∧
    max 1 (Nat.digits 10 (value h v)).length + 1 ≤ CORK_U128_DECIMAL_LENGTH ∧
    max 1 (Nat.digits 16 (value h v)).length + 1 ≤ CORK_U128_HEX_LENGTH ∧
    ⌈(128 : ℝ) * Real.logb 10 2⌉ = 39 ∧
    39 + 1 ≤ CORK_U128_DECIMAL_LENGTH ∧ 32 + 1 ≤ CORK_U128_HEX_LENGTH := by
  have hv := value_lt h v
  have h10 : (Nat.digits 10 (value h v)).length ≤ 39 :=
    digits_length_le_of_lt_pow 10 39 _ (by decide) (Nat.lt_of_lt_of_le hv (by decide))
  have h16 : (Nat.digits 16 (value h v)).length ≤ 32 :=
    digits_length_le_of_lt_pow 16 32 _ (by decide) (Nat.lt_of_lt_of_le hv (by decide))
  refine ⟨h10, h16, ?_, ?_, ceil_128_log10_2, by decide, by decide⟩
  · show max 1 (Nat.digits 10 (value h v)).length + 1 ≤ 44
    omega
  · show max 1 (Nat.digits 16 (value h v)).length + 1 ≤ 33
    omega

/-- C17. On either host, for the modelled `cork_u128_to_decimal`: reading the
string as a base-10 number gives `value v`; its first character is `0` exactly
when `value v = 0`, and then the string is exactly `"0"`; it has as many
characters as `value v` has decimal digits (one for zero) and no string `s`
of decimal digits that reads as `value v` is shorter; and `from_64(0, 12345)`
formats as `"12345"`. -/
theorem cork_u128_to_decimal_correct (h : Endianness) (v u : cork_u128) (s : String)
    (hs : s.toNat? = some (value h v)) :
    (cork_u128_to_decimal h v).toNat? = some (value h v) ∧
    ((cork_u128_to_decimal h v).data.head? = some '0' ↔ value h v = 0) ∧
    (cork_u128_to_decimal h v = "0" ↔ value h v = 0) ∧
    (cork_u128_to_decimal h v).length = max 1 (Nat.digits 10 (value h v)).length ∧
    (cork_u128_to_decimal h v).length ≤ s.length ∧
    cork_u128_to_decimal h (cork_u128_from_64 h u 0 12345) = "12345" := by
  refine ⟨decimal_string_toNat _, decimal_string_head _, decimal_string_eq_zero _,
    decimal_string_length _, decimal_string_shortest _ s hs, ?_⟩
  unfold cork_u128_to_decimal
  rw [value_from_64]
  simp [decimal_string]
  decide

/-- An instance of C17: `from_64(0, 12345)` on a little-endian host, compared
with the longer digit string `"012345"`. -/
theorem cork_u128_to_decimal_correct_witness :
    (cork_u128_to_decimal CORK_LITTLE_ENDIAN
        (cork_u128_from_64 CORK_LITTLE_ENDIAN zeroed 0 12345)).toNat?
      = some (value CORK_LITTLE_ENDIAN (cork_u128_from_64 CORK_LITTLE_ENDIAN zeroed 0 12345)) ∧
    ((cork_u128_to_decimal CORK_LITTLE_ENDIAN
        (cork_u128_from_64 CORK_LITTLE_ENDIAN zeroed 0 12345)).data.head? = some '0'
      ↔ value CORK_LITTLE_ENDIAN (cork_u128_from_64 CORK_LITTLE_ENDIAN zeroed 0 12345) = 0) ∧
    (cork_u128_to_decimal CORK_LITTLE_ENDIAN
        (cork_u128_from_64 CORK_LITTLE_ENDIAN zeroed 0 12345) = "0"
      ↔ value CORK_LITTLE_ENDIAN (cork_u128_from_64 CORK_LITTLE_ENDIAN zeroed 0 12345) = 0) ∧
    (cork_u128_to_decimal CORK_LITTLE_ENDIAN
        (cork_u128_from_64 CORK_LITTLE_ENDIAN zeroed 0 12345)).length
      = max 1 (Nat.digits 10
          (value CORK_LITTLE_ENDIAN
            (cork_u128_from_64 CORK_LITTLE_ENDIAN zeroed 0 12345))).length ∧
    (cork_u128_to_decimal CORK_LITTLE_ENDIAN
        (cork_u128_from_64 CORK_LITTLE_ENDIAN zeroed 0 12345)).length
      ≤ (String.mk ['0', '1', '2', '3', '4', '5']).length ∧
    cork_u128_to_decimal CORK_LITTLE_ENDIAN
        (cork_u128_from_64 CORK_LITTLE_ENDIAN zeroed 0 12345) = "12345" :=
  cork_u128_to_decimal_correct CORK_LITTLE_ENDIAN
    (cork_u128_from_64 CORK_LITTLE_ENDIAN zeroed 0 12345) zeroed
    (String.mk ['0', '1', '2', '3', '4', '5'])
    (by rw [string_mk_toNat, value_from_64]; decide)

end Libcork
